import Mathlib

/-!
Verification of the antigravity_claude_server core against its specification.

This file gives a shallow embedding, in Lean 4, of the parts of the source
that the frozen claims are about:

* the account pool manager (`src/account-manager/rate-limits.ts`,
  `src/account-manager/selection.ts`, the `AccountManager` class and the
  `loadAccounts`/`saveAccounts` persistence layer in
  `src/account-manager/storage.ts`),
* the credential broker (`src/account-manager/credentials.ts`),
* the dispatcher gate shared by `sendMessage` and `sendMessageStream`
  (`src/cloudcode/message-handler.ts`, `src/cloudcode/streaming-handler.ts`),
* the Google-SSE to Anthropic-SSE translator
  (`src/cloudcode/sse-streamer.ts`), and
* the OpenAI response converter (`src/format/openai-response-converter.js`).

Conventions of the embedding: JavaScript `Date.now()` is an explicit `now : Int`
parameter; `sleep(d)` advances `now` by `d`; JavaScript `null`/`undefined` is
`Option`; JavaScript objects used as string-keyed maps are association lists;
in-place mutation of the account array is explicit state passing.  JavaScript
string truthiness (`""` is falsy) is modelled where the source relies on it.
Time values are `Int` (epoch milliseconds).  Randomly generated identifiers
(`crypto.randomBytes`) are replaced by a deterministic counter, which is
irrelevant to every claim proved here.
-/

namespace Antigravity

/-- Modelled from the spec: `DEFAULT_COOLDOWN_MS` is defined in
`src/constants.js`, which is not among the provided sources.  Section 6 of the
spec lists a "default cooldown duration" constant with an implementation-chosen
default; we fix one minute. -/
def DEFAULT_COOLDOWN_MS : Int := 60000

/-- Modelled from the spec: `MAX_WAIT_BEFORE_ERROR_MS` is defined in
`src/constants.js`, which is not among the provided sources.  The spec gives
"max-wait-before-error (about 2 min)", so we fix 120000 ms. -/
def MAX_WAIT_BEFORE_ERROR_MS : Int := 120000

/-- Per-model rate-limit entry, `{isRateLimited, resetTime}` in the source. -/
structure ModelRateLimit where
  isRateLimited : Bool
  resetTime : Option Int
deriving DecidableEq, Repr

/-- An account of the pool, with the fields used by the account manager.
The on-disk open-record form used by `loadAccounts`/`saveAccounts` is modelled
separately (see `Storage`). -/
structure Account where
  email : String
  source : String := "oauth"
  refreshToken : Option String := none
  apiKey : Option String := none
  isInvalid : Bool := false
  invalidReason : Option String := none
  invalidAt : Option Int := none
  modelRateLimits : List (String × ModelRateLimit) := []
  lastUsed : Option Int := none
deriving DecidableEq, Repr

/-- Association-list read, the JavaScript `modelRateLimits[modelId]`. -/
def lookupLimit (limits : List (String × ModelRateLimit)) (m : String) :
    Option ModelRateLimit :=
  match limits with
  | [] => none
  | e :: rest => if e.1 = m then some e.2 else lookupLimit rest m

/-- Association-list write, the JavaScript `modelRateLimits[modelId] = l`. -/
def setLimitAssoc (limits : List (String × ModelRateLimit)) (m : String)
    (l : ModelRateLimit) : List (String × ModelRateLimit) :=
  if limits.any (fun e => e.1 == m) then
    limits.map (fun e => if e.1 == m then (e.1, l) else e)
  else
    limits ++ [(m, l)]

/-- The check `limit.isRateLimited && limit.resetTime !== null &&
limit.resetTime > Date.now()` that recurs throughout the source. -/
def limitActive (now : Int) (l : ModelRateLimit) : Bool :=
  l.isRateLimited && (match l.resetTime with
    | some rt => decide (now < rt)
    | none => false)

namespace RateLimits

/-- The body of the `every` callback in `isAllRateLimited`
(src/account-manager/rate-limits.ts): an account counts as unavailable when it
is invalid or has an active, unexpired rate limit for the model. -/
def accUnavailable (now : Int) (m : String) (acc : Account) : Bool :=
  acc.isInvalid || (match lookupLimit acc.modelRateLimits m with
    | some limit => limitActive now limit
    | none => false)

/-- `isAllRateLimited(accounts, modelId)` from
src/account-manager/rate-limits.ts.  Note the order of the two early returns:
the empty-pool check precedes the missing-model check. -/
def isAllRateLimited (now : Int) (accounts : List Account)
    (modelId : Option String) : Bool :=
  if accounts.isEmpty then true
  else
    match modelId with
    | none => false
    | some m =>
      if m = "" then false
      else accounts.all (accUnavailable now m)

/-- The limit-value part of one entry of `clearExpiredLimits`: a flagged limit
with a reset time in the past is reset to `{false, null}`. -/
def clearLimit (now : Int) (l : ModelRateLimit) : ModelRateLimit :=
  if l.isRateLimited && (match l.resetTime with
      | some rt => decide (rt ≤ now)
      | none => false) then
    ⟨false, none⟩
  else l

/-- One entry of `clearExpiredLimits` (the key is untouched). -/
def clearEntry (now : Int) (e : String × ModelRateLimit) :
    String × ModelRateLimit :=
  (e.1, clearLimit now e.2)

/-- `clearExpiredLimits` restricted to one account. -/
def clearAccount (now : Int) (a : Account) : Account :=
  { a with modelRateLimits := a.modelRateLimits.map (clearEntry now) }

/-- `clearExpiredLimits(accounts)` from src/account-manager/rate-limits.ts,
as a state transformer (the cleared-entry count it also returns is used by the
caller only for logging and save scheduling and is not modelled). -/
def clearExpiredLimits (now : Int) (accounts : List Account) : List Account :=
  accounts.map (clearAccount now)

/-- Pool settings record; only `cooldownDurationMs` is read by the modelled
code. -/
structure AccountSettings where
  cooldownDurationMs : Option Int := none
deriving DecidableEq, Repr

/-- The mutation `markRateLimited` performs on the account it finds. -/
def applyLimit (now : Int) (resetMs : Option Int) (settings : AccountSettings)
    (m : String) (a : Account) : Account :=
  let cooldownMs := match resetMs with
    | some r => r
    | none => match settings.cooldownDurationMs with
      | some c => c
      | none => DEFAULT_COOLDOWN_MS
  { a with modelRateLimits :=
      setLimitAssoc a.modelRateLimits m ⟨true, some (now + cooldownMs)⟩ }

/-- Update the first account matching the predicate (the source mutates the
object returned by `accounts.find`). -/
def updateFirst (p : Account → Bool) (f : Account → Account) :
    List Account → List Account
  | [] => []
  | a :: rest => if p a then f a :: rest else a :: updateFirst p f rest

/-- `markRateLimited(accounts, email, resetMs, settings, modelId)` from
src/account-manager/rate-limits.ts, as a state transformer on the pool. -/
def markRateLimited (now : Int) (accounts : List Account) (email : String)
    (resetMs : Option Int) (settings : AccountSettings) (m : String) :
    List Account :=
  updateFirst (fun a => a.email == email) (applyLimit now resetMs settings m)
    accounts

/-- The per-account candidate wait in `getMinWaitTimeMs`: the loop considers
`resetTime - now` for an account whose limit for the model is flagged and has
a reset time, and only when that wait is positive. -/
def minWaitCandidate (now : Int) (m : String) (acc : Account) : Option Int :=
  match lookupLimit acc.modelRateLimits m with
  | some limit =>
    if limit.isRateLimited then
      match limit.resetTime with
      | some rt => if 0 < rt - now then some (rt - now) else none
      | none => none
    else none
  | none => none

/-- One step of the running-minimum loop in `getMinWaitTimeMs` (`minWait`
starts at `Infinity`, modelled by `none`; `wait < minWait` keeps the first of
equal candidates). -/
def minWaitStep (now : Int) (modelId : Option String) (mv : Option Int)
    (acc : Account) : Option Int :=
  match modelId with
  | some m =>
    if m ≠ "" then
      match minWaitCandidate now m acc with
      | some w =>
        match mv with
        | some v => if w < v then some w else some v
        | none => some w
      | none => mv
    else mv
  | none => mv

/-- `getMinWaitTimeMs(accounts, modelId)` from
src/account-manager/rate-limits.ts: 0 unless everyone is rate-limited, else
the minimum positive `resetTime - now` over the accounts, defaulting to the
configured cooldown when no account exhibits a positive wait. -/
def getMinWaitTimeMs (now : Int) (accounts : List Account)
    (modelId : Option String) : Int :=
  if ¬ isAllRateLimited now accounts modelId then 0
  else
    match accounts.foldl (minWaitStep now modelId) none with
    | some v => v
    | none => DEFAULT_COOLDOWN_MS

end RateLimits

namespace Manager

open RateLimits

/-- Result of the `AccountManager.markRateLimited` method: the new pool state
and whether a save to disk was scheduled. -/
structure MarkRateLimitedResult where
  accounts : List Account
  savedToDisk : Bool
deriving DecidableEq, Repr

/-- The method `AccountManager.markRateLimited(email, resetMs, modelId)` from
src/account-manager/storage.ts: the body runs only under `if (modelId)`, so a
null (or empty-string, JavaScript falsy) model id does nothing and schedules
no save. -/
def markRateLimited (now : Int) (accounts : List Account)
    (settings : AccountSettings) (email : String) (resetMs : Option Int)
    (modelId : Option String) : MarkRateLimitedResult :=
  match modelId with
  | some m =>
    if m ≠ "" then
      ⟨RateLimits.markRateLimited now accounts email resetMs settings m, true⟩
    else ⟨accounts, false⟩
  | none => ⟨accounts, false⟩

end Manager

namespace Selection

open RateLimits

/-- `isAccountUsable(account, modelId)` from
src/account-manager/selection.ts: not invalid, and no active unexpired rate
limit for the (truthy) model id. -/
def isAccountUsable (now : Int) (account : Account)
    (modelId : Option String) : Bool :=
  if account.isInvalid then false
  else
    match modelId with
    | some m =>
      if m = "" then true
      else
        match lookupLimit account.modelRateLimits m with
        | some limit => !(limitActive now limit)
        | none => true
    | none => true

/-- `getAvailableAccounts(accounts, modelId)` from
src/account-manager/rate-limits.ts; its inline filter performs exactly the
checks of `isAccountUsable`. -/
def getAvailableAccounts (now : Int) (accounts : List Account)
    (modelId : Option String) : List Account :=
  accounts.filter (fun acc => isAccountUsable now acc modelId)

/-- Result record `{account, newIndex}` of the selection functions, together
with the pool state they mutated in place. -/
structure SelectionResult where
  accounts : List Account
  account : Option Account
  newIndex : Nat
deriving DecidableEq, Repr

/-- The `account.lastUsed = Date.now()` mutation, on the element at `idx`. -/
def setLastUsed (accounts : List Account) (idx : Nat) (now : Int) :
    List Account :=
  accounts.mapIdx (fun i a => if i = idx then { a with lastUsed := some now }
    else a)

/-- The search loop of `pickNext`: for `i = 1 .. accounts.length`, probe
`(index + i) % accounts.length`; here `i` runs over `0 .. length - 1` with the
probe `(index + i + 1) % length`.  Returns the first offset whose account is
usable. -/
def nextUsableOffset (now : Int) (accounts : List Account) (index : Nat)
    (modelId : Option String) : Option Nat :=
  (List.range accounts.length).find? (fun i =>
    match accounts[(index + i + 1) % accounts.length]? with
    | some a => isAccountUsable now a modelId
    | none => false)

/-- `pickNext(accounts, currentIndex, onSave, modelId)` from
src/account-manager/selection.ts.  Clears expired limits, returns null when
no account is usable, else advances round-robin from the clamped index to the
first usable account, stamping its `lastUsed`. -/
def pickNext (now : Int) (accounts0 : List Account) (currentIndex : Nat)
    (modelId : Option String) : SelectionResult :=
  let accounts := clearExpiredLimits now accounts0
  let available := getAvailableAccounts now accounts modelId
  if available.isEmpty then ⟨accounts, none, currentIndex⟩
  else
    let index := if currentIndex ≥ accounts.length then 0 else currentIndex
    match nextUsableOffset now accounts index modelId with
    | some i =>
      let idx := (index + i + 1) % accounts.length
      match accounts[idx]? with
      | some a =>
        ⟨setLastUsed accounts idx now, some { a with lastUsed := some now },
          idx⟩
      | none => ⟨accounts, none, currentIndex⟩
    | none => ⟨accounts, none, currentIndex⟩

/-- `getCurrentStickyAccount(accounts, currentIndex, onSave, modelId)` from
src/account-manager/selection.ts: look only at the clamped current index. -/
def getCurrentStickyAccount (now : Int) (accounts0 : List Account)
    (currentIndex : Nat) (modelId : Option String) : SelectionResult :=
  let accounts := clearExpiredLimits now accounts0
  if accounts.isEmpty then ⟨accounts, none, currentIndex⟩
  else
    let index := if currentIndex ≥ accounts.length then 0 else currentIndex
    match accounts[index]? with
    | some a =>
      if isAccountUsable now a modelId then
        ⟨setLastUsed accounts index now, some { a with lastUsed := some now },
          index⟩
      else ⟨accounts, none, index⟩
    | none => ⟨accounts, none, index⟩

/-- Result record of `shouldWaitForCurrentAccount`. -/
structure ShouldWaitResult where
  shouldWait : Bool
  waitMs : Int
  account : Option Account
deriving DecidableEq, Repr

/-- `shouldWaitForCurrentAccount(accounts, currentIndex, modelId)` from
src/account-manager/selection.ts: recommend waiting when the sticky account
has a positive model-specific wait of at most `MAX_WAIT_BEFORE_ERROR_MS`. -/
def shouldWaitForCurrentAccount (now : Int) (accounts : List Account)
    (currentIndex : Nat) (modelId : Option String) : ShouldWaitResult :=
  if accounts.isEmpty then ⟨false, 0, none⟩
  else
    let index := if currentIndex ≥ accounts.length then 0 else currentIndex
    match accounts[index]? with
    | none => ⟨false, 0, none⟩
    | some account =>
      if account.isInvalid then ⟨false, 0, none⟩
      else
        let waitMs : Int :=
          match modelId with
          | some m =>
            if m ≠ "" then
              match lookupLimit account.modelRateLimits m with
              | some limit =>
                if limit.isRateLimited then
                  match limit.resetTime with
                  | some rt => rt - now
                  | none => 0
                else 0
              | none => 0
            else 0
          | none => 0
        if 0 < waitMs ∧ waitMs ≤ MAX_WAIT_BEFORE_ERROR_MS then
          ⟨true, waitMs, some account⟩
        else ⟨false, 0, some account⟩

/-- Result record `{account, waitMs, newIndex}` of `pickStickyAccount`,
together with the mutated pool. -/
structure StickyResult where
  accounts : List Account
  account : Option Account
  waitMs : Int
  newIndex : Nat
deriving DecidableEq, Repr

/-- The shared tail of `pickStickyAccount`: consult
`shouldWaitForCurrentAccount`, else fall back to a final `pickNext` (whose
account may be null, in which case the returned index is the unchanged
`currentIndex`). -/
def stickyTail (now : Int) (accounts : List Account) (currentIndex : Nat)
    (modelId : Option String) : StickyResult :=
  let waitInfo := shouldWaitForCurrentAccount now accounts currentIndex modelId
  if waitInfo.shouldWait then ⟨accounts, none, waitInfo.waitMs, currentIndex⟩
  else
    let r := pickNext now accounts currentIndex modelId
    ⟨r.accounts, r.account, 0, r.newIndex⟩

/-- `pickStickyAccount(accounts, currentIndex, onSave, modelId)` from
src/account-manager/selection.ts: sticky first; then an immediate failover
`pickNext` when some other account is available; then the shared tail
(`stickyTail`) reached both when nothing is available and when that failover
`pickNext` returned null. -/
def pickStickyAccount (now : Int) (accounts0 : List Account)
    (currentIndex : Nat) (modelId : Option String) : StickyResult :=
  let r1 := getCurrentStickyAccount now accounts0 currentIndex modelId
  match r1.account with
  | some a => ⟨r1.accounts, some a, 0, r1.newIndex⟩
  | none =>
    let available := getAvailableAccounts now r1.accounts modelId
    if ¬ available.isEmpty then
      let r2 := pickNext now r1.accounts currentIndex modelId
      match r2.account with
      | some a => ⟨r2.accounts, some a, 0, r2.newIndex⟩
      | none => stickyTail now r2.accounts currentIndex modelId
    else stickyTail now r1.accounts currentIndex modelId

end Selection

namespace Dispatcher

/-- Outcome of the account-acquisition gate at the top of each attempt of
`sendMessage` / `sendMessageStream` (the code up to and including the
`if (!account)` block, before any HTTP is issued). -/
inductive GateOutcome where
  | proceed (account : Account)
  | resourceExhausted (allWaitMs : Int) (resetTime : Int)
  | noAccount
deriving DecidableEq, Repr

/-- Result of the gate: the sleeps performed (in order, in ms), the outcome,
and the mutated pool state and active index. -/
structure GateResult where
  sleeps : List Int
  outcome : GateOutcome
  accounts : List Account
  newIndex : Nat
deriving DecidableEq, Repr

/-- The `if (!account)` block shared by `sendMessage`
(src/cloudcode/message-handler.ts) and `sendMessageStream`
(src/cloudcode/streaming-handler.ts): when everyone is rate-limited, either
throw `RESOURCE_EXHAUSTED` (wait beyond the threshold, no sleep) or sleep the
minimum wait, clear expired limits and `pickNext`; reaching the end with no
account is the fallback-or-throw point. -/
def noAccountBranch (sleeps : List Int) (now : Int) (accounts : List Account)
    (idx : Nat) (modelId : Option String) : GateResult :=
  if RateLimits.isAllRateLimited now accounts modelId then
    let allWaitMs := RateLimits.getMinWaitTimeMs now accounts modelId
    if MAX_WAIT_BEFORE_ERROR_MS < allWaitMs then
      ⟨sleeps, .resourceExhausted allWaitMs (now + allWaitMs), accounts, idx⟩
    else
      let now2 := now + allWaitMs
      let accs2 := RateLimits.clearExpiredLimits now2 accounts
      let r := Selection.pickNext now2 accs2 idx modelId
      match r.account with
      | some a => ⟨sleeps ++ [allWaitMs], .proceed a, r.accounts, r.newIndex⟩
      | none => ⟨sleeps ++ [allWaitMs], .noAccount, r.accounts, r.newIndex⟩
  else ⟨sleeps, .noAccount, accounts, idx⟩

/-- The account-acquisition gate of one attempt of `sendMessage` /
`sendMessageStream`: `pickStickyAccount`; on a positive wait, sleep it (time
advances by `waitMs`), clear expired limits and retry the sticky account; then
the all-rate-limited block.  `sleep(d)` is modelled as advancing `now` by
`d`. -/
def dispatchGate (accounts0 : List Account) (idx0 : Nat)
    (modelId : Option String) (now : Int) : GateResult :=
  let r := Selection.pickStickyAccount now accounts0 idx0 modelId
  match r.account with
  | some a => ⟨[], .proceed a, r.accounts, r.newIndex⟩
  | none =>
    if 0 < r.waitMs then
      let now2 := now + r.waitMs
      let accs2 := RateLimits.clearExpiredLimits now2 r.accounts
      let r2 := Selection.getCurrentStickyAccount now2 accs2 r.newIndex modelId
      match r2.account with
      | some a => ⟨[r.waitMs], .proceed a, r2.accounts, r2.newIndex⟩
      | none =>
        noAccountBranch [r.waitMs] now2 r2.accounts r2.newIndex modelId
    else noAccountBranch [] now r.accounts r.newIndex modelId

end Dispatcher

namespace Fallback

/-- How one attempt (one iteration of the retry loop) of `sendMessage` /
`sendMessageStream` ends, abstracting the HTTP world: the attempt returned a
response, continued to the next attempt (caught rate-limit / auth / 5xx /
network errors), reached the no-account point after the gate, or threw a
non-retriable error. -/
inductive AttemptStep where
  | returned
  | continued
  | noAccountPoint
  | threw
deriving DecidableEq, Repr

/-- How the retry loop exits. -/
inductive LoopExit where
  | returned
  | noAccountPoint
  | threw
  | maxRetries
deriving DecidableEq, Repr

/-- The retry loop `for (attempt = 0; attempt < maxAttempts; attempt++)`:
`continued` iterates, anything else exits; running out of attempts is the
final `Max retries exceeded` throw. -/
def runAttempts (step : Nat → AttemptStep) : Nat → Nat → LoopExit
  | 0, _ => .maxRetries
  | fuel + 1, attempt =>
    match step attempt with
    | .continued => runAttempts step fuel (attempt + 1)
    | .returned => .returned
    | .noAccountPoint => .noAccountPoint
    | .threw => .threw

/-- The sequence of `(model, fallbackEnabled)` invocations of `sendMessage`
(identically, `sendMessageStream`) made while handling one client request:
the entry call, plus the recursive call made at the no-account point when
fallback is enabled and a fallback model is configured.  The source passes
`false` for the recursive call (`sendMessage(fallbackRequest, accountManager,
false)`), which is what makes this recursion structural. -/
def sendMessageCalls (steps : String → Nat → AttemptStep)
    (fallbackCfg : String → Option String) (maxAttempts : String → Nat)
    (model : String) : Bool → List (String × Bool)
  | true =>
    (model, true) ::
      (match runAttempts (steps model) (maxAttempts model) 0 with
       | .noAccountPoint =>
         match fallbackCfg model with
         | some fm => sendMessageCalls steps fallbackCfg maxAttempts fm false
         | none => []
       | _ => [])
  | false => [(model, false)]
termination_by b => if b then 1 else 0
decreasing_by decide

end Fallback

namespace Credentials

/-- Modelled from the spec: `TOKEN_REFRESH_INTERVAL_MS` is defined in
`src/constants.js`, which is not among the provided sources; the spec lists a
"token refresh interval" constant.  We fix one hour. -/
def TOKEN_REFRESH_INTERVAL_MS : Int := 3600000

/-- Token-cache entry `{token, extractedAt}`. -/
structure TokenCacheEntry where
  token : String
  extractedAt : Int
deriving DecidableEq, Repr

/-- The ways `refreshAccessToken` can fail, as the error object caught in
`getTokenForAccount`, carrying the error message. -/
inductive RefreshError where
  | dnsFailure (msg : String)
  | connectionRefused (msg : String)
  | connectionReset (msg : String)
  | timeout (msg : String)
  | httpStatus (code : Nat) (msg : String)
  | malformedResponse (msg : String)
  | missingAccessToken (msg : String)
  | otherError (msg : String)
deriving DecidableEq, Repr

/-- The `err.message` of a refresh error. -/
def RefreshError.message : RefreshError → String
  | .dnsFailure m => m
  | .connectionRefused m => m
  | .connectionReset m => m
  | .timeout m => m
  | .httpStatus _ m => m
  | .malformedResponse m => m
  | .missingAccessToken m => m
  | .otherError m => m

/-- Modelled from the spec: `isNetworkError` lives in `src/utils/helpers.js`,
which is not among the provided sources.  Spec section 4.2 classifies DNS
failure, connection refused/reset, timeout and 5xx as network errors; 4xx,
malformed responses and missing `access_token` are permanent. -/
def isNetworkError : RefreshError → Bool
  | .dnsFailure _ => true
  | .connectionRefused _ => true
  | .connectionReset _ => true
  | .timeout _ => true
  | .httpStatus code _ => decide (500 ≤ code)
  | .malformedResponse _ => false
  | .missingAccessToken _ => false
  | .otherError _ => false

/-- Association-list read of the token cache (`tokenCache.get(email)`). -/
def lookupCache (cache : List (String × TokenCacheEntry)) (email : String) :
    Option TokenCacheEntry :=
  match cache with
  | [] => none
  | e :: rest => if e.1 = email then some e.2 else lookupCache rest email

/-- Association-list write of the token cache (`tokenCache.set(email, e)`). -/
def setCache (cache : List (String × TokenCacheEntry)) (email : String)
    (entry : TokenCacheEntry) : List (String × TokenCacheEntry) :=
  if cache.any (fun e => e.1 == email) then
    cache.map (fun e => if e.1 == email then (e.1, entry) else e)
  else cache ++ [(email, entry)]

/-- The cache-hit check at the top of `getTokenForAccount`: a cached token
younger than the refresh interval is returned as is. -/
def cacheFresh (now : Int) (cache : List (String × TokenCacheEntry))
    (email : String) : Option String :=
  match lookupCache cache email with
  | some c =>
    if now - c.extractedAt < TOKEN_REFRESH_INTERVAL_MS then some c.token
    else none
  | none => none

/-- JavaScript truthiness of an optional string (`undefined`, `null` and `""`
are falsy). -/
def strTruthy : Option String → Bool
  | some s => s ≠ ""
  | none => false

/-- Result of `getTokenForAccount`: the value returned or error thrown, the
(possibly mutated) account object, the `onInvalid(email, reason)` callback
invocation if any, and the token-cache state. -/
structure TokenFetchResult where
  result : Except String String
  account : Account
  markInvalidCall : Option (String × String)
  tokenCache : List (String × TokenCacheEntry)
deriving Repr

/-- `getTokenForAccount(account, tokenCache, onInvalid, onSave)` from
src/account-manager/credentials.ts.  The outcome of the
`refreshAccessToken` HTTP exchange and of the database read are passed in as
oracles (`refreshOutcome`, `dbOutcome`); everything after the `try` is
transcribed: a network error rethrows as `AUTH_NETWORK_ERROR` without marking
the account invalid, any other refresh error invokes the `onInvalid` callback
and rethrows as `AUTH_INVALID`; a successful refresh clears the invalid flag
and caches the token. -/
def getTokenForAccount (now : Int) (account : Account)
    (tokenCache : List (String × TokenCacheEntry))
    (refreshOutcome : Except RefreshError String)
    (dbOutcome : Except String String) : TokenFetchResult :=
  match cacheFresh now tokenCache account.email with
  | some t => ⟨.ok t, account, none, tokenCache⟩
  | none =>
    if account.source = "oauth" ∧ strTruthy account.refreshToken then
      match refreshOutcome with
      | .ok token =>
        let account2 :=
          if account.isInvalid then
            { account with isInvalid := false, invalidReason := none }
          else account
        ⟨.ok token, account2, none,
          setCache tokenCache account.email ⟨token, now⟩⟩
      | .error e =>
        if isNetworkError e then
          ⟨.error ("AUTH_NETWORK_ERROR: " ++ e.message), account, none,
            tokenCache⟩
        else
          ⟨.error ("AUTH_INVALID: " ++ account.email ++ ": " ++ e.message),
            account, some (account.email, e.message), tokenCache⟩
    else if account.source = "manual" ∧ strTruthy account.apiKey then
      match account.apiKey with
      | some token =>
        ⟨.ok token, account, none,
          setCache tokenCache account.email ⟨token, now⟩⟩
      | none => ⟨.error "unreachable", account, none, tokenCache⟩
    else
      match dbOutcome with
      | .ok token =>
        ⟨.ok token, account, none,
          setCache tokenCache account.email ⟨token, now⟩⟩
      | .error m => ⟨.error m, account, none, tokenCache⟩

end Credentials

namespace Streamer

/-- Modelled from the spec: `MIN_SIGNATURE_LENGTH` is defined in
`src/constants.js`, which is not among the provided sources; the spec lists a
"minimum thinking-signature length" constant.  We fix 50.  No claim proved
below depends on its value. -/
def MIN_SIGNATURE_LENGTH : Nat := 50

/-- A part of a Google SSE data event as the translator discriminates parts:
a `thought` text part (has `thought: true` and a `text` key, with optional
`thoughtSignature`), a plain defined text, a `functionCall` (optional `id`,
name, arguments, and a sibling `thoughtSignature`), or anything else, which
the translator skips.  Function-call arguments are modelled by their JSON
serialization, so `JSON.stringify(part.functionCall.args ?? {})` is the
carried string (defaulting to the serialization of the empty object). -/
inductive GPart where
  | thought (text : Option String) (thoughtSignature : Option String)
  | text (t : String)
  | functionCall (id : Option String) (name : String)
      (argsJson : Option String) (thoughtSignature : Option String)
  | otherPart
deriving DecidableEq, Repr

/-- `usageMetadata` of a Google response chunk. -/
structure UsageMetadata where
  promptTokenCount : Option Int := none
  candidatesTokenCount : Option Int := none
  cachedContentTokenCount : Option Int := none
deriving DecidableEq, Repr

/-- One parsed `data:` event of the upstream SSE stream, after the
byte-buffering and JSON parsing that the claims abstract over: the usage
metadata, the parts of the first candidate, and its finish reason. -/
structure GoogleChunk where
  usageMetadata : Option UsageMetadata := none
  parts : List GPart := []
  finishReason : Option String := none
deriving DecidableEq, Repr

/-- Usage record carried by `message_start`. -/
structure MessageUsage where
  input_tokens : Int
  output_tokens : Int
  cache_read_input_tokens : Int
  cache_creation_input_tokens : Int
deriving DecidableEq, Repr

/-- Usage record carried by `message_delta`. -/
structure DeltaUsage where
  output_tokens : Int
  cache_read_input_tokens : Int
  cache_creation_input_tokens : Int
deriving DecidableEq, Repr

/-- The three block kinds tracked in `currentBlockType`. -/
inductive BlockKind where
  | thinking
  | text
  | tool_use
deriving DecidableEq, Repr

/-- The `content_block` payload of a `content_block_start` event (thinking and
text blocks always start empty; tool-use blocks carry id, name and the
optional captured `thoughtSignature`; their `input` is always `{}`). -/
inductive ContentBlockInit where
  | thinking (thinking : String)
  | text (t : String)
  | tool_use (id : String) (name : String) (thoughtSignature : Option String)
deriving DecidableEq, Repr

/-- The block kind a `content_block_start` payload opens. -/
def ContentBlockInit.kind : ContentBlockInit → BlockKind
  | .thinking _ => .thinking
  | .text _ => .text
  | .tool_use _ _ _ => .tool_use

/-- The delta payloads of `content_block_delta`. -/
inductive Delta where
  | thinking_delta (thinking : String)
  | signature_delta (signature : String)
  | text_delta (t : String)
  | input_json_delta (partial_json : String)
deriving DecidableEq, Repr

/-- Whether a delta is a `signature_delta`. -/
def Delta.isSignature : Delta → Bool
  | .signature_delta _ => true
  | _ => false

/-- The Anthropic SSE events yielded by `streamSSEResponse`
(src/cloudcode/sse-streamer.ts), with the payload fields the claims
mention. -/
inductive SSEEvent where
  | message_start (id : String) (model : String) (usage : MessageUsage)
  | content_block_start (index : Nat) (block : ContentBlockInit)
  | content_block_delta (index : Nat) (delta : Delta)
  | content_block_stop (index : Nat)
  | message_delta (stop_reason : String) (usage : DeltaUsage)
  | message_stop
deriving DecidableEq, Repr

/-- The local variables of `streamSSEResponse`, plus a counter standing in for
`crypto.randomBytes` when minting tool-use ids. -/
structure StreamState where
  hasEmittedStart : Bool := false
  blockIndex : Nat := 0
  currentBlockType : Option BlockKind := none
  currentThinkingSignature : String := ""
  inputTokens : Int := 0
  outputTokens : Int := 0
  cacheReadTokens : Int := 0
  stopReason : String := "end_turn"
  toolIdCounter : Nat := 0
deriving DecidableEq, Repr

/-- The body of the `for (const part of parts)` loop of `streamSSEResponse`,
as a transformer of the stream state yielding the events emitted for this
part. -/
def processPart (s : StreamState) (p : GPart) : StreamState × List SSEEvent :=
  match p with
  | .thought txt sig =>
    let text := txt.getD ""
    let signature := sig.getD ""
    let (s1, evs1) :=
      if s.currentBlockType ≠ some BlockKind.thinking then
        let (s0, evs0) :=
          if s.currentBlockType ≠ none then
            ({ s with blockIndex := s.blockIndex + 1 },
             [SSEEvent.content_block_stop s.blockIndex])
          else (s, [])
        ({ s0 with
            currentBlockType := some BlockKind.thinking,
            currentThinkingSignature := "" },
         evs0 ++ [SSEEvent.content_block_start s0.blockIndex
           (ContentBlockInit.thinking "")])
      else (s, [])
    let s2 :=
      if signature ≠ "" ∧ MIN_SIGNATURE_LENGTH ≤ signature.length then
        { s1 with currentThinkingSignature := signature }
      else s1
    (s2, evs1 ++ [SSEEvent.content_block_delta s2.blockIndex
      (Delta.thinking_delta text)])
  | .text t =>
    if t = "" ∨ t.trim = "" then (s, [])
    else
      let (s1, evs1) :=
        if s.currentBlockType ≠ some BlockKind.text then
          let (sa, evsa) :=
            if s.currentBlockType = some BlockKind.thinking ∧
                s.currentThinkingSignature ≠ "" then
              ({ s with currentThinkingSignature := "" },
               [SSEEvent.content_block_delta s.blockIndex
                 (Delta.signature_delta s.currentThinkingSignature)])
            else (s, [])
          let (sb, evsb) :=
            if sa.currentBlockType ≠ none then
              ({ sa with blockIndex := sa.blockIndex + 1 },
               [SSEEvent.content_block_stop sa.blockIndex])
            else (sa, [])
          ({ sb with currentBlockType := some BlockKind.text },
           evsa ++ evsb ++ [SSEEvent.content_block_start sb.blockIndex
             (ContentBlockInit.text "")])
        else (s, [])
      (s1, evs1 ++ [SSEEvent.content_block_delta s1.blockIndex
        (Delta.text_delta t)])
  | .functionCall id name argsJson sig =>
    let functionCallSignature := sig.getD ""
    let (sa, evsa) :=
      if s.currentBlockType = some BlockKind.thinking ∧
          s.currentThinkingSignature ≠ "" then
        ({ s with currentThinkingSignature := "" },
         [SSEEvent.content_block_delta s.blockIndex
           (Delta.signature_delta s.currentThinkingSignature)])
      else (s, [])
    let (sb, evsb) :=
      if sa.currentBlockType ≠ none then
        ({ sa with blockIndex := sa.blockIndex + 1 },
         [SSEEvent.content_block_stop sa.blockIndex])
      else (sa, [])
    let (toolId, sc) :=
      match id with
      | some i => (i, sb)
      | none => ("toolu_" ++ toString sb.toolIdCounter,
          { sb with toolIdCounter := sb.toolIdCounter + 1 })
    let sd := { sc with
        currentBlockType := some BlockKind.tool_use,
        stopReason := "tool_use" }
    let blockSig :=
      if functionCallSignature ≠ "" ∧
          MIN_SIGNATURE_LENGTH ≤ functionCallSignature.length then
        some functionCallSignature
      else none
    (sd, evsa ++ evsb ++
      [SSEEvent.content_block_start sd.blockIndex
        (ContentBlockInit.tool_use toolId name blockSig),
       SSEEvent.content_block_delta sd.blockIndex
        (Delta.input_json_delta (argsJson.getD "\x7b\x7d"))])
  | .otherPart => (s, [])

/-- The parts loop of `streamSSEResponse`, over the list of parts of one
chunk. -/
def processParts (s : StreamState) : List GPart → StreamState × List SSEEvent
  | [] => (s, [])
  | p :: rest =>
    let (s1, e1) := processPart s p
    let (s2, e2) := processParts s1 rest
    (s2, e1 ++ e2)

/-- The usage-tracking statements at the top of the read loop of
`streamSSEResponse` (`inputTokens = usage.promptTokenCount ?? inputTokens`,
and so on). -/
def applyUsage (s : StreamState) (usage : Option UsageMetadata) :
    StreamState :=
  match usage with
  | some u =>
    { s with
        inputTokens := u.promptTokenCount.getD s.inputTokens,
        outputTokens := u.candidatesTokenCount.getD s.outputTokens,
        cacheReadTokens := u.cachedContentTokenCount.getD s.cacheReadTokens }
  | none => s

/-- The finish-reason tracking at the bottom of the read loop of
`streamSSEResponse`. -/
def applyFinish (s : StreamState) (fr : Option String) : StreamState :=
  match fr with
  | some fr =>
    if fr = "MAX_TOKENS" then { s with stopReason := "max_tokens" }
    else if fr = "STOP" then { s with stopReason := "end_turn" }
    else s
  | none => s

/-- Processing of one parsed `data:` event inside the read loop of
`streamSSEResponse`: track usage, emit `message_start` on the first chunk
with parts, process the parts, track the finish reason. -/
def processChunk (msgId model : String) (s : StreamState) (c : GoogleChunk) :
    StreamState × List SSEEvent :=
  let su := applyUsage s c.usageMetadata
  let (ss, startEvs) :=
    if ¬ su.hasEmittedStart ∧ ¬ c.parts.isEmpty then
      ({ su with hasEmittedStart := true },
       [SSEEvent.message_start msgId model
         ⟨su.inputTokens - su.cacheReadTokens, 0, su.cacheReadTokens, 0⟩])
    else (su, [])
  let (sp, partEvs) := processParts ss c.parts
  (applyFinish sp c.finishReason, startEvs ++ partEvs)

/-- The read loop of `streamSSEResponse`, over the list of parsed chunks. -/
def processChunks (msgId model : String) (s : StreamState) :
    List GoogleChunk → StreamState × List SSEEvent
  | [] => (s, [])
  | c :: rest =>
    let (s1, e1) := processChunk msgId model s c
    let (s2, e2) := processChunks msgId model s1 rest
    (s2, e1 ++ e2)

/-- The code after the read loop of `streamSSEResponse`: synthesize an
empty message when nothing was emitted (`message_start`, an empty text block
opening, a placeholder `text_delta`, `content_block_stop`), otherwise close
any open block (flushing a pending thinking signature); then `message_delta`
and `message_stop`. -/
def epilogue (msgId model : String) (s : StreamState) : List SSEEvent :=
  (if ¬ s.hasEmittedStart then
    [SSEEvent.message_start msgId model
      ⟨s.inputTokens - s.cacheReadTokens, 0, s.cacheReadTokens, 0⟩,
     SSEEvent.content_block_start 0 (ContentBlockInit.text ""),
     SSEEvent.content_block_delta 0
       (Delta.text_delta "[No response received from API]"),
     SSEEvent.content_block_stop 0]
  else
    (if s.currentBlockType ≠ none then
      (if s.currentBlockType = some BlockKind.thinking ∧
          s.currentThinkingSignature ≠ "" then
        [SSEEvent.content_block_delta s.blockIndex
          (Delta.signature_delta s.currentThinkingSignature)]
      else [])
      ++ [SSEEvent.content_block_stop s.blockIndex]
    else []))
  ++ [SSEEvent.message_delta s.stopReason ⟨s.outputTokens, s.cacheReadTokens, 0⟩,
      SSEEvent.message_stop]

/-- `streamSSEResponse(response, originalModel)` from
src/cloudcode/sse-streamer.ts, as a function from the parsed upstream chunks
to the full list of yielded Anthropic SSE events.  `msgId` stands for the
randomly minted message id. -/
def streamSSEResponse (msgId model : String) (chunks : List GoogleChunk) :
    List SSEEvent :=
  let (s, evs) := processChunks msgId model ({} : StreamState) chunks
  evs ++ epilogue msgId model s

/-- Checker state for the well-formedness automaton over the emitted event
sequence (this encodes the property claimed of the stream, not the
translator): awaiting `message_start`; in the body with the currently open
block (if any) and the index the open block has or the next block must take;
after `message_delta`; or complete. -/
inductive CheckState where
  | start
  | body (openBlock : Option BlockKind) (idx : Nat)
  | afterDelta
  | done
deriving DecidableEq, Repr

/-- One transition of the well-formedness automaton.  It accepts exactly the
sequences in which: the first event, and no later one, is `message_start`;
blocks are bracketed by `content_block_start` / `content_block_stop` on the
same index, with indices consecutive from 0 (hence strictly increasing);
deltas occur only inside the block with their index, a `signature_delta` only
inside a thinking block (hence before that block's stop); and the sequence
ends with `message_delta` then `message_stop`, with all blocks closed. -/
def stepCheck : CheckState → SSEEvent → Option CheckState
  | .start, .message_start _ _ _ => some (.body none 0)
  | .body none i, .content_block_start j b =>
    if j = i then some (.body (some b.kind) i) else none
  | .body (some k) i, .content_block_delta j d =>
    if j = i ∧ (d.isSignature = true → k = BlockKind.thinking) then
      some (.body (some k) i)
    else none
  | .body (some _) i, .content_block_stop j =>
    if j = i then some (.body none (i + 1)) else none
  | .body none _, .message_delta _ _ => some .afterDelta
  | .afterDelta, .message_stop => some .done
  | _, _ => none

/-- Run of the well-formedness automaton. -/
def runCheck : CheckState → List SSEEvent → Option CheckState
  | st, [] => some st
  | st, e :: rest =>
    match stepCheck st e with
    | some st2 => runCheck st2 rest
    | none => none

/-- The checker state that simulates a translator state: before
`message_start` the automaton awaits it, afterwards it is in the body with
the translator's current block and block index. -/
def repState (s : StreamState) : CheckState :=
  if s.hasEmittedStart then CheckState.body s.currentBlockType s.blockIndex
  else CheckState.start

end Streamer

namespace OpenAIConverter

/-- A content block of an internal (Anthropic-format) response, as
`convertToOpenAI` discriminates blocks; tool-use inputs are modelled by their
JSON serialization (`JSON.stringify(block.input || {})`). -/
inductive RespBlock where
  | text (t : String)
  | thinking (t : String)
  | tool_use (id : String) (name : String) (inputJson : String)
  | otherBlock
deriving DecidableEq, Repr

/-- The `usage` record of an internal response (fields may be absent). -/
structure RespUsage where
  input_tokens : Option Int := none
  output_tokens : Option Int := none
  cache_read_input_tokens : Option Int := none
deriving DecidableEq, Repr

/-- An internal response as read by `convertToOpenAI`. -/
structure AnthropicResponse where
  content : List RespBlock := []
  stop_reason : Option String := none
  usage : Option RespUsage := none
deriving DecidableEq, Repr

/-- An entry of `tool_calls` in the OpenAI response. -/
structure ToolCall where
  id : String
  name : String
  arguments : String
deriving DecidableEq, Repr

/-- The `usage` record of the OpenAI response. -/
structure OpenAIUsage where
  prompt_tokens : Int
  completion_tokens : Int
  total_tokens : Int
deriving DecidableEq, Repr

/-- The parts of the OpenAI Chat Completions response built by
`convertToOpenAI` that the claims mention (the random completion id and the
creation timestamp are omitted). -/
structure OpenAIResponse where
  model : String
  content : Option String
  tool_calls : List ToolCall
  finish_reason : String
  usage : OpenAIUsage
deriving DecidableEq, Repr

/-- JavaScript `x || 0` on an optional number. -/
def orZero : Option Int → Int
  | some v => v
  | none => 0

/-- The content-extraction loop of `convertToOpenAI`: concatenated text and
the accumulated tool calls (thinking blocks are skipped); a falsy (empty)
tool-use id is replaced by a minted `call_` id, modelled with a counter. -/
def extractContent (blocks : List RespBlock) (textAcc : String)
    (callsAcc : List ToolCall) (ctr : Nat) : String × List ToolCall :=
  match blocks with
  | [] => (textAcc, callsAcc)
  | .text t :: rest => extractContent rest (textAcc ++ t) callsAcc ctr
  | .thinking _ :: rest => extractContent rest textAcc callsAcc ctr
  | .tool_use id name inputJson :: rest =>
    let callId := if id ≠ "" then id else "call_" ++ toString ctr
    extractContent rest textAcc
      (callsAcc ++ [⟨callId, name, inputJson⟩]) (ctr + 1)
  | .otherBlock :: rest => extractContent rest textAcc callsAcc ctr

/-- `convertToOpenAI(anthropicResponse, model)` from
src/format/openai-response-converter.js. -/
def convertToOpenAI (anthropicResponse : AnthropicResponse) (model : String) :
    OpenAIResponse :=
  let (textContent, toolCalls) :=
    extractContent anthropicResponse.content "" [] 0
  let finishReason :=
    if anthropicResponse.stop_reason = some "max_tokens" then "length"
    else if anthropicResponse.stop_reason = some "tool_use" ∨
        ¬ toolCalls.isEmpty then "tool_calls"
    else if anthropicResponse.stop_reason = some "end_turn" then "stop"
    else "stop"
  let content := if textContent ≠ "" then some textContent else none
  let usage : OpenAIUsage :=
    let prompt :=
      orZero (anthropicResponse.usage.bind (fun u => u.input_tokens)) +
      orZero (anthropicResponse.usage.bind (fun u => u.cache_read_input_tokens))
    let completion :=
      orZero (anthropicResponse.usage.bind (fun u => u.output_tokens))
    ⟨prompt, completion, prompt + completion⟩
  ⟨model, content, toolCalls, finishReason, usage⟩

end OpenAIConverter

namespace Storage

/-- JSON values, for the open-record behavior of the persisted account
file. -/
inductive JValue where
  | null
  | bool (b : Bool)
  | num (n : Int)
  | str (s : String)
  | arr (items : List JValue)
  | obj (fields : List (String × JValue))

/-- A JSON object as an association list (key order is irrelevant to every
statement below, which reads objects only through `getField`). -/
abbrev JObj := List (String × JValue)

/-- Property read `o[k]`; an absent key is JavaScript `undefined`. -/
def getField (o : JObj) (k : String) : Option JValue :=
  match o with
  | [] => none
  | e :: rest => if e.1 = k then some e.2 else getField rest k

/-- Property write `o[k] = v` (also the effect of a spread followed by an
explicit field): replace the binding if the key is present, else add it. -/
def setField (o : JObj) (k : String) (v : JValue) : JObj :=
  match o with
  | [] => [(k, v)]
  | e :: rest => if e.1 = k then (e.1, v) :: rest else e :: setField rest k v

/-- Strict-equality test of a property against a string literal
(`acc.source === "oauth"`). -/
def fieldIsStr (v : Option JValue) (s : String) : Bool :=
  match v with
  | some (JValue.str t) => t == s
  | _ => false

/-- JavaScript `x ?? d`: the default replaces `undefined` and `null` only. -/
def nullishDefault (v : Option JValue) (d : JValue) : JValue :=
  match v with
  | some JValue.null => d
  | some x => x
  | none => d

/-- The per-account mapping of `loadAccounts`
(src/account-manager/storage.ts): the object spread preserves every field,
then `lastUsed` is defaulted to null, the invalid flag and reason are reset,
and `modelRateLimits` is defaulted to the empty object. -/
def normalizeLoadedAccount (acc : JObj) : JObj :=
  let a1 := setField acc "lastUsed"
    (nullishDefault (getField acc "lastUsed") JValue.null)
  let a2 := setField a1 "isInvalid" (JValue.bool false)
  let a3 := setField a2 "invalidReason" JValue.null
  setField a3 "modelRateLimits"
    (nullishDefault (getField acc "modelRateLimits") (JValue.obj []))

/-- The account list produced by `loadAccounts` from a parsed config object
(`(config.accounts ?? []).map(...)`); the file-system and JSON-parsing layer
is abstracted, and a non-object array entry (which the source would crash on
when spreading) is modelled as the empty object. -/
def loadAccounts (config : JObj) : List JObj :=
  match nullishDefault (getField config "accounts") (JValue.arr []) with
  | JValue.arr items =>
    items.map (fun v =>
      match v with
      | JValue.obj o => normalizeLoadedAccount o
      | _ => normalizeLoadedAccount [])
  | _ => []

/-- A key-value entry that `JSON.stringify` keeps only when the value is
defined (JavaScript `undefined` values make the key disappear). -/
def optEntry (k : String) (v : Option JValue) : JObj :=
  match v with
  | some x => [(k, x)]
  | none => []

/-- The per-account object written by `saveAccounts`
(src/account-manager/storage.ts): a literal with exactly the fields `email`,
`source`, `dbPath`, `refreshToken` (oauth only), `apiKey` (manual only),
`projectId`, `addedAt`, `isInvalid`, `invalidReason`, `modelRateLimits`,
`lastUsed`; any other field of the in-memory account object is not copied. -/
def saveAccountObj (acc : JObj) : JObj :=
  optEntry "email" (getField acc "email")
  ++ optEntry "source" (getField acc "source")
  ++ [("dbPath", nullishDefault (getField acc "dbPath") JValue.null)]
  ++ (if fieldIsStr (getField acc "source") "oauth" then
        optEntry "refreshToken" (getField acc "refreshToken")
      else [])
  ++ (if fieldIsStr (getField acc "source") "manual" then
        optEntry "apiKey" (getField acc "apiKey")
      else [])
  ++ optEntry "projectId" (getField acc "projectId")
  ++ optEntry "addedAt" (getField acc "addedAt")
  ++ [("isInvalid", nullishDefault (getField acc "isInvalid")
        (JValue.bool false))]
  ++ [("invalidReason", nullishDefault (getField acc "invalidReason")
        JValue.null)]
  ++ [("modelRateLimits", nullishDefault (getField acc "modelRateLimits")
        (JValue.obj []))]
  ++ optEntry "lastUsed" (getField acc "lastUsed")

/-- The config object written by `saveAccounts`: exactly the keys `accounts`,
`settings` and `activeIndex`. -/
def saveAccounts (accounts : List JObj) (settings : JValue)
    (activeIndex : Int) : JObj :=
  [("accounts", JValue.arr (accounts.map (fun a => JValue.obj
      (saveAccountObj a)))),
   ("settings", settings),
   ("activeIndex", JValue.num activeIndex)]

/-- The account fields `saveAccounts` writes. -/
def knownAccountKeys : List String :=
  ["email", "source", "dbPath", "refreshToken", "apiKey", "projectId",
   "addedAt", "isInvalid", "invalidReason", "modelRateLimits", "lastUsed"]

/-- The account fields `loadAccounts` overrides. -/
def loadOverriddenKeys : List String :=
  ["lastUsed", "isInvalid", "invalidReason", "modelRateLimits"]

end Storage

/-! ## Theorems settling the claims

Helper lemmas come first in each group; each claim is settled by the theorem
named after it. -/

/-- C10: calling `AccountManager.markRateLimited(email, resetMs)` with a null
or omitted `modelId` is a no-op: the account list (hence every account record,
including `modelRateLimits`, `isInvalid` and `lastUsed`) is returned
unchanged and no save to disk is scheduled. -/
theorem c10_markRateLimited_null_model_noop (now : Int)
    (accounts : List Account) (settings : RateLimits.AccountSettings)
    (email : String) (resetMs : Option Int) :
    Manager.markRateLimited now accounts settings email resetMs none
      = ⟨accounts, false⟩ := rfl

/-- C5 counterexample: on the empty account list with no model supplied,
`isAllRateLimited` returns `true`, not `false` as claimed (the empty-pool
early return precedes the missing-model early return). -/
theorem c5_counterexample :
    RateLimits.isAllRateLimited 0 [] none = true := rfl

/-- C5 amended: for a nonempty model string `m`, `isAllRateLimited` is true
iff every account is invalid or has an active, unexpired rate limit for `m`;
with no model supplied it returns false provided the account list is
nonempty; on the empty account list it returns true regardless of the
model. -/
theorem c5_amended (now : Int) (accounts : List Account) (m : String)
    (hm : m ≠ "") :
    (RateLimits.isAllRateLimited now accounts (some m) = true ↔
      ∀ a ∈ accounts, RateLimits.accUnavailable now m a = true)
    ∧ (accounts ≠ [] → RateLimits.isAllRateLimited now accounts none = false)
    ∧ RateLimits.isAllRateLimited now [] (some m) = true := by
  refine ⟨?_, ?_, rfl⟩
  · cases accounts with
    | nil => simp [RateLimits.isAllRateLimited]
    | cons a rest =>
      simp [RateLimits.isAllRateLimited, hm, List.all_eq_true]
  · intro hne
    cases accounts with
    | nil => exact absurd rfl hne
    | cons a rest => simp [RateLimits.isAllRateLimited]

/-- C5 witness: the amended statement instantiated at a one-account pool and
the model "gemini-pro". -/
theorem c5_witness :
    (RateLimits.isAllRateLimited 0 [{ email := "a" }] (some "gemini-pro")
        = true ↔
      ∀ a ∈ ([{ email := "a" }] : List Account),
        RateLimits.accUnavailable 0 "gemini-pro" a = true)
    ∧ (([{ email := "a" }] : List Account) ≠ [] →
        RateLimits.isAllRateLimited 0 [{ email := "a" }] none = false)
    ∧ RateLimits.isAllRateLimited 0 [] (some "gemini-pro") = true :=
  c5_amended 0 [{ email := "a" }] "gemini-pro" (by decide)

/-- Reading a key other than the one just written sees the original object. -/
theorem getField_setField_ne (o : Storage.JObj) (k0 : String)
    (v : Storage.JValue) (k : String) (h : k ≠ k0) :
    Storage.getField (Storage.setField o k0 v) k = Storage.getField o k := by
  induction o with
  | nil => simp [Storage.setField, Storage.getField, Ne.symm h]
  | cons e rest ih =>
    by_cases he : e.1 = k0
    · have hek : ¬ k0 = k := Ne.symm h
      simp [Storage.setField, Storage.getField, he, hek]
    · simp only [Storage.setField, if_neg he]
      by_cases hek : e.1 = k
      · simp [Storage.getField, hek]
      · simp [Storage.getField, hek, ih]

/-- Field lookup distributes over object concatenation. -/
theorem getField_append (l1 l2 : Storage.JObj) (k : String) :
    Storage.getField (l1 ++ l2) k =
      match Storage.getField l1 k with
      | some v => some v
      | none => Storage.getField l2 k := by
  induction l1 with
  | nil => simp [Storage.getField]
  | cons e rest ih =>
    by_cases hek : e.1 = k
    · simp [Storage.getField, hek]
    · simp [Storage.getField, hek, ih]

/-- An `optEntry` for a different key has no binding for `k`. -/
theorem getField_optEntry_ne (k0 : String) (v : Option Storage.JValue)
    (k : String) (h : k ≠ k0) :
    Storage.getField (Storage.optEntry k0 v) k = none := by
  cases v with
  | none => simp [Storage.optEntry, Storage.getField]
  | some x => simp [Storage.optEntry, Storage.getField, Ne.symm h]

/-- C7 counterexample: an account carrying a field the core does not
understand (`customField`) loses it when written back by `saveAccounts`: the
saved account object has no binding for it, so the file content does not
round-trip. -/
theorem c7_counterexample :
    Storage.getField
      [("email", Storage.JValue.str "a@b"),
       ("source", Storage.JValue.str "oauth"),
       ("customField", Storage.JValue.str "keep-me")] "customField"
      = some (Storage.JValue.str "keep-me")
    ∧ Storage.getField (Storage.saveAccountObj
      [("email", Storage.JValue.str "a@b"),
       ("source", Storage.JValue.str "oauth"),
       ("customField", Storage.JValue.str "keep-me")]) "customField"
      = none := ⟨rfl, rfl⟩

/-- C7 amended: `loadAccounts` (an object spread plus explicit overrides)
preserves every account field other than the four it overrides, but
`saveAccounts` rewrites each account with a fixed field list, so a field the
core does not understand is dropped on save (and so is any top-level config
key other than `accounts`, `settings`, `activeIndex`); the round-trip
preservation the claim states does not hold. -/
theorem c7_amended (acc : Storage.JObj) (k : String)
    (hsave : k ∉ Storage.knownAccountKeys)
    (hload : k ∉ Storage.loadOverriddenKeys) :
    Storage.getField (Storage.saveAccountObj acc) k = none
    ∧ Storage.getField (Storage.normalizeLoadedAccount acc) k
      = Storage.getField acc k
    ∧ (∀ (accountsL : List Storage.JObj) (settings : Storage.JValue)
        (ai : Int), k ∉ (["accounts", "settings", "activeIndex"] : List String)
        → Storage.getField (Storage.saveAccounts accountsL settings ai) k
          = none) := by
  simp only [Storage.knownAccountKeys, List.mem_cons, List.not_mem_nil,
    or_false, not_or] at hsave
  obtain ⟨h1, h2, h3, h4, h5, h6, h7, h8, h9, h10, h11⟩ := hsave
  simp only [Storage.loadOverriddenKeys, List.mem_cons, List.not_mem_nil,
    or_false, not_or] at hload
  obtain ⟨g1, g2, g3, g4⟩ := hload
  refine ⟨?_, ?_, ?_⟩
  · have hif1 : Storage.getField
        (if Storage.fieldIsStr (Storage.getField acc "source") "oauth" then
          Storage.optEntry "refreshToken" (Storage.getField acc "refreshToken")
        else []) k = none := by
      split
      · exact getField_optEntry_ne _ _ _ h4
      · rfl
    have hif2 : Storage.getField
        (if Storage.fieldIsStr (Storage.getField acc "source") "manual" then
          Storage.optEntry "apiKey" (Storage.getField acc "apiKey")
        else []) k = none := by
      split
      · exact getField_optEntry_ne _ _ _ h5
      · rfl
    simp [Storage.saveAccountObj, getField_append,
      getField_optEntry_ne _ _ _ h1, getField_optEntry_ne _ _ _ h2,
      getField_optEntry_ne _ _ _ h6, getField_optEntry_ne _ _ _ h7,
      getField_optEntry_ne _ _ _ h11, hif1, hif2,
      Storage.getField, Ne.symm h3, Ne.symm h8, Ne.symm h9, Ne.symm h10]
  · simp [Storage.normalizeLoadedAccount,
      getField_setField_ne _ _ _ _ g1, getField_setField_ne _ _ _ _ g2,
      getField_setField_ne _ _ _ _ g3, getField_setField_ne _ _ _ _ g4]
  · intro accountsL settings ai hk
    simp only [List.mem_cons, List.not_mem_nil, or_false, not_or] at hk
    obtain ⟨t1, t2, t3⟩ := hk
    simp [Storage.saveAccounts, Storage.getField, Ne.symm t1, Ne.symm t2,
      Ne.symm t3]

/-- C7 witness: the amended statement instantiated at the counterexample
account and the key `customField`. -/
theorem c7_witness :
    Storage.getField (Storage.saveAccountObj
      [("email", Storage.JValue.str "a@b"),
       ("customField", Storage.JValue.str "keep-me")]) "customField" = none
    ∧ Storage.getField (Storage.normalizeLoadedAccount
      [("email", Storage.JValue.str "a@b"),
       ("customField", Storage.JValue.str "keep-me")]) "customField"
      = Storage.getField
        [("email", Storage.JValue.str "a@b"),
         ("customField", Storage.JValue.str "keep-me")] "customField"
    ∧ (∀ (accountsL : List Storage.JObj) (settings : Storage.JValue)
        (ai : Int),
        "customField" ∉ (["accounts", "settings", "activeIndex"] : List String)
        → Storage.getField (Storage.saveAccounts accountsL settings ai)
            "customField" = none) :=
  c7_amended
    [("email", Storage.JValue.str "a@b"),
     ("customField", Storage.JValue.str "keep-me")] "customField"
    (by decide) (by decide)

/-- C3: when the refresh-token exchange performed by `getTokenForAccount`
for an OAuth account (with a stale or absent cache entry) fails with a
network error, the function throws `AUTH_NETWORK_ERROR` and the account is
not marked invalid (no `onInvalid` call, account object untouched); when it
fails with any other, permanent error, the account is marked invalid via the
callback and the function throws `AUTH_INVALID`. -/
theorem c3_token_error_classification (now : Int) (account : Account)
    (tokenCache : List (String × Credentials.TokenCacheEntry))
    (db : Except String String) (e : Credentials.RefreshError)
    (hcache : Credentials.cacheFresh now tokenCache account.email = none)
    (hsrc : account.source = "oauth")
    (hrt : Credentials.strTruthy account.refreshToken = true) :
    (Credentials.isNetworkError e = true →
      (Credentials.getTokenForAccount now account tokenCache
        (.error e) db).result
        = .error ("AUTH_NETWORK_ERROR: " ++ e.message)
      ∧ (Credentials.getTokenForAccount now account tokenCache
          (.error e) db).markInvalidCall = none
      ∧ (Credentials.getTokenForAccount now account tokenCache
          (.error e) db).account = account)
    ∧ (Credentials.isNetworkError e = false →
      (Credentials.getTokenForAccount now account tokenCache
        (.error e) db).result
        = .error ("AUTH_INVALID: " ++ account.email ++ ": " ++ e.message)
      ∧ (Credentials.getTokenForAccount now account tokenCache
          (.error e) db).markInvalidCall
        = some (account.email, e.message)) := by
  unfold Credentials.getTokenForAccount
  rw [hcache]
  by_cases hnet : Credentials.isNetworkError e
  · simp [hsrc, hrt, hnet]
  · simp [hsrc, hrt, hnet]

/-- C3 witness: a stale cache, an OAuth account, and a timeout versus a
malformed-response failure. -/
theorem c3_witness :
    (Credentials.isNetworkError (.timeout "ETIMEDOUT") = true →
      (Credentials.getTokenForAccount 0
        { email := "x@y", source := "oauth", refreshToken := some "rt" } []
        (.error (.timeout "ETIMEDOUT")) (.error "db")).result
        = .error ("AUTH_NETWORK_ERROR: " ++
            (Credentials.RefreshError.timeout "ETIMEDOUT").message)
      ∧ (Credentials.getTokenForAccount 0
          { email := "x@y", source := "oauth", refreshToken := some "rt" } []
          (.error (.timeout "ETIMEDOUT")) (.error "db")).markInvalidCall
        = none
      ∧ (Credentials.getTokenForAccount 0
          { email := "x@y", source := "oauth", refreshToken := some "rt" } []
          (.error (.timeout "ETIMEDOUT")) (.error "db")).account
        = { email := "x@y", source := "oauth", refreshToken := some "rt" })
    ∧ (Credentials.isNetworkError (.timeout "ETIMEDOUT") = false →
      (Credentials.getTokenForAccount 0
        { email := "x@y", source := "oauth", refreshToken := some "rt" } []
        (.error (.timeout "ETIMEDOUT")) (.error "db")).result
        = .error ("AUTH_INVALID: " ++ "x@y" ++ ": " ++
            (Credentials.RefreshError.timeout "ETIMEDOUT").message)
      ∧ (Credentials.getTokenForAccount 0
          { email := "x@y", source := "oauth", refreshToken := some "rt" } []
          (.error (.timeout "ETIMEDOUT")) (.error "db")).markInvalidCall
        = some ("x@y", (Credentials.RefreshError.timeout "ETIMEDOUT").message)) :=
  c3_token_error_classification 0
    { email := "x@y", source := "oauth", refreshToken := some "rt" } []
    (.error "db") (.timeout "ETIMEDOUT") rfl rfl rfl

/-- C9: model fallback is invoked at most once per client request: the call
sequence of `sendMessage` (identically `sendMessageStream`) for one request
has length at most two, and every call after the entry call carries
`fallbackEnabled = false`, so a second fallback substitution can never
occur. -/
theorem c9_fallback_only_once (steps : String → Nat → Fallback.AttemptStep)
    (cfg : String → Option String) (maxA : String → Nat) (model : String)
    (fb : Bool) :
    (Fallback.sendMessageCalls steps cfg maxA model fb).length ≤ 2
    ∧ ∀ entry ∈ (Fallback.sendMessageCalls steps cfg maxA model fb).drop 1,
        entry.2 = false := by
  cases fb
  · simp [Fallback.sendMessageCalls]
  · rcases hr : Fallback.runAttempts (steps model) (maxA model) 0 with _ | _ | _ | _
    · simp [Fallback.sendMessageCalls, hr]
    · rcases hc : cfg model with _ | fm
      · simp [Fallback.sendMessageCalls, hr, hc]
      · simp [Fallback.sendMessageCalls, hr, hc]
    · simp [Fallback.sendMessageCalls, hr]
    · simp [Fallback.sendMessageCalls, hr]

/-- C6: the usage arithmetic of the translators.  For a stream whose first
chunk carries usage metadata with a prompt-token and a cached-token count,
the `message_start` emitted by `streamSSEResponse` reports
`input_tokens = promptTokenCount - cachedContentTokenCount` (and carries the
cached count as `cache_read_input_tokens`); and for every internal response,
`convertToOpenAI` reports `total_tokens = prompt_tokens +
completion_tokens`. -/
theorem c6_usage_accounting (msgId model omodel : String)
    (u : Streamer.UsageMetadata) (p c : Int) (parts : List Streamer.GPart)
    (fr : Option String) (rest : List Streamer.GoogleChunk)
    (resp : OpenAIConverter.AnthropicResponse)
    (hp : u.promptTokenCount = some p)
    (hc : u.cachedContentTokenCount = some c)
    (hparts : parts ≠ []) :
    (Streamer.streamSSEResponse msgId model
        ({ usageMetadata := some u, parts := parts, finishReason := fr } :: rest)).head?
      = some (Streamer.SSEEvent.message_start msgId model ⟨p - c, 0, c, 0⟩)
    ∧ (OpenAIConverter.convertToOpenAI resp omodel).usage.total_tokens
      = (OpenAIConverter.convertToOpenAI resp omodel).usage.prompt_tokens
        + (OpenAIConverter.convertToOpenAI resp omodel).usage.completion_tokens
    := by
  constructor
  · obtain ⟨q, qs, rfl⟩ := List.exists_cons_of_ne_nil hparts
    unfold Streamer.streamSSEResponse Streamer.processChunks
      Streamer.processChunk
    simp [hp, hc, Streamer.processParts, Streamer.applyUsage,
      Streamer.applyFinish]
  · simp [OpenAIConverter.convertToOpenAI]

/-- C6 witness: a one-chunk stream with usage `{prompt 10, candidates 5,
cached 3}` and a concrete response. -/
theorem c6_witness :
    (Streamer.streamSSEResponse "msg_0" "gemini-pro"
        [{ usageMetadata := some ⟨some 10, some 5, some 3⟩,
           parts := [Streamer.GPart.text "hi"],
           finishReason := some "STOP" }]).head?
      = some (Streamer.SSEEvent.message_start "msg_0" "gemini-pro"
          ⟨10 - 3, 0, 3, 0⟩)
    ∧ (OpenAIConverter.convertToOpenAI
        { content := [OpenAIConverter.RespBlock.text "hi"],
          stop_reason := some "end_turn",
          usage := some ⟨some 7, some 5, some 3⟩ } "gpt").usage.total_tokens
      = (OpenAIConverter.convertToOpenAI
          { content := [OpenAIConverter.RespBlock.text "hi"],
            stop_reason := some "end_turn",
            usage := some ⟨some 7, some 5, some 3⟩ } "gpt").usage.prompt_tokens
        + (OpenAIConverter.convertToOpenAI
            { content := [OpenAIConverter.RespBlock.text "hi"],
              stop_reason := some "end_turn",
              usage := some ⟨some 7, some 5, some 3⟩ } "gpt").usage.completion_tokens :=
  c6_usage_accounting "msg_0" "gemini-pro" "gpt" ⟨some 10, some 5, some 3⟩
    10 3 [Streamer.GPart.text "hi"] (some "STOP") []
    { content := [OpenAIConverter.RespBlock.text "hi"],
      stop_reason := some "end_turn",
      usage := some ⟨some 7, some 5, some 3⟩ }
    rfl rfl (by decide)

/-- C8 counterexample: on a stream that produced no content parts,
`streamSSEResponse` does synthesize a one-block response without erroring,
but the block is not empty-text: the single `text_delta` carries the
placeholder string "[No response received from API]". -/
theorem c8_counterexample :
    Streamer.streamSSEResponse "msg_0" "gemini-pro" [] =
      [Streamer.SSEEvent.message_start "msg_0" "gemini-pro" ⟨0, 0, 0, 0⟩,
       Streamer.SSEEvent.content_block_start 0 (Streamer.ContentBlockInit.text ""),
       Streamer.SSEEvent.content_block_delta 0
         (Streamer.Delta.text_delta "[No response received from API]"),
       Streamer.SSEEvent.content_block_stop 0,
       Streamer.SSEEvent.message_delta "end_turn" ⟨0, 0, 0⟩,
       Streamer.SSEEvent.message_stop]
    ∧ "[No response received from API]" ≠ "" := ⟨rfl, by decide⟩

/-- Chunks without parts emit no events and leave `hasEmittedStart` false. -/
theorem processChunks_no_parts (msgId model : String)
    (chunks : List Streamer.GoogleChunk) :
    ∀ s : Streamer.StreamState, (∀ ch ∈ chunks, ch.parts = []) →
      s.hasEmittedStart = false →
      (Streamer.processChunks msgId model s chunks).2 = []
      ∧ (Streamer.processChunks msgId model s chunks).1.hasEmittedStart
        = false := by
  induction chunks with
  | nil => intro s _ hs; exact ⟨rfl, hs⟩
  | cons ch rest ih =>
    intro s h hs
    have hch : ch.parts = [] := h ch (by simp)
    have hstep : (Streamer.processChunk msgId model s ch).2 = []
        ∧ (Streamer.processChunk msgId model s ch).1.hasEmittedStart
          = false := by
      unfold Streamer.processChunk
      rcases hu : ch.usageMetadata with _ | u <;>
        rcases hf : ch.finishReason with _ | fr <;>
        simp [hch, hs, Streamer.processParts, Streamer.applyUsage,
          Streamer.applyFinish] <;>
        (try split) <;> (try simp [hs]) <;> (try split) <;> (try simp [hs])
    have hrest := ih (Streamer.processChunk msgId model s ch).1
      (fun x hx => h x (by simp [hx])) hstep.2
    constructor
    · show (Streamer.processChunks msgId model s (ch :: rest)).2 = []
      unfold Streamer.processChunks
      simp [hstep.1, hrest.1]
    · show (Streamer.processChunks msgId model s
        (ch :: rest)).1.hasEmittedStart = false
      unfold Streamer.processChunks
      simp [hrest.2]

/-- C8 amended: for every upstream stream that produced no content parts,
`streamSSEResponse` does not error and synthesizes a well-formed one-block
response: `message_start`, a text block opened at index 0 with empty text
that receives one `text_delta` carrying the placeholder
"[No response received from API]", `content_block_stop`, then `message_delta`
and `message_stop`. -/
theorem c8_amended (msgId model : String)
    (chunks : List Streamer.GoogleChunk)
    (h : ∀ ch ∈ chunks, ch.parts = []) :
    ∃ i cr o sr,
      Streamer.streamSSEResponse msgId model chunks =
        [Streamer.SSEEvent.message_start msgId model ⟨i, 0, cr, 0⟩,
         Streamer.SSEEvent.content_block_start 0
           (Streamer.ContentBlockInit.text ""),
         Streamer.SSEEvent.content_block_delta 0
           (Streamer.Delta.text_delta "[No response received from API]"),
         Streamer.SSEEvent.content_block_stop 0,
         Streamer.SSEEvent.message_delta sr ⟨o, cr, 0⟩,
         Streamer.SSEEvent.message_stop] := by
  obtain ⟨hevs, hflag⟩ :=
    processChunks_no_parts msgId model chunks ({} : Streamer.StreamState) h rfl
  refine ⟨(Streamer.processChunks msgId model ({} : Streamer.StreamState)
        chunks).1.inputTokens
      - (Streamer.processChunks msgId model ({} : Streamer.StreamState)
        chunks).1.cacheReadTokens,
    (Streamer.processChunks msgId model ({} : Streamer.StreamState)
        chunks).1.cacheReadTokens,
    (Streamer.processChunks msgId model ({} : Streamer.StreamState)
        chunks).1.outputTokens,
    (Streamer.processChunks msgId model ({} : Streamer.StreamState)
        chunks).1.stopReason, ?_⟩
  show (Streamer.processChunks msgId model ({} : Streamer.StreamState)
      chunks).2
    ++ Streamer.epilogue msgId model
      (Streamer.processChunks msgId model ({} : Streamer.StreamState)
        chunks).1 = _
  rw [hevs]
  simp [Streamer.epilogue, hflag]

/-- C8 witness: the amended statement instantiated at a stream consisting of
one part-less chunk carrying usage metadata. -/
theorem c8_witness :
    ∃ i cr o sr,
      Streamer.streamSSEResponse "msg_0" "gemini-pro"
        [{ usageMetadata := some ⟨some 10, some 5, some 3⟩, parts := [],
           finishReason := some "STOP" }] =
        [Streamer.SSEEvent.message_start "msg_0" "gemini-pro" ⟨i, 0, cr, 0⟩,
         Streamer.SSEEvent.content_block_start 0
           (Streamer.ContentBlockInit.text ""),
         Streamer.SSEEvent.content_block_delta 0
           (Streamer.Delta.text_delta "[No response received from API]"),
         Streamer.SSEEvent.content_block_stop 0,
         Streamer.SSEEvent.message_delta sr ⟨o, cr, 0⟩,
         Streamer.SSEEvent.message_stop] :=
  c8_amended "msg_0" "gemini-pro"
    [{ usageMetadata := some ⟨some 10, some 5, some 3⟩, parts := [],
       finishReason := some "STOP" }] (by decide)

/-- Lookup commutes with the expired-limit sweep (keys are untouched). -/
theorem lookupLimit_clear (now : Int)
    (limits : List (String × ModelRateLimit)) (m : String) :
    lookupLimit (limits.map (RateLimits.clearEntry now)) m
      = (lookupLimit limits m).map (RateLimits.clearLimit now) := by
  induction limits with
  | nil => rfl
  | cons e rest ih =>
    by_cases he : e.1 = m
    · simp [lookupLimit, RateLimits.clearEntry, he]
    · simp [lookupLimit, RateLimits.clearEntry, he, ih]

/-- Sweeping an entry does not change whether it is active at the same
instant: only limits whose reset time has passed are cleared, and those were
already inactive. -/
theorem limitActive_clearLimit (now : Int) (l : ModelRateLimit) :
    limitActive now (RateLimits.clearLimit now l) = limitActive now l := by
  rcases l with ⟨flag, rt⟩
  cases flag
  · simp [RateLimits.clearLimit, limitActive]
  · cases rt with
    | none => simp [RateLimits.clearLimit, limitActive]
    | some t =>
      by_cases ht : t ≤ now
      · simp [RateLimits.clearLimit, limitActive, ht]
        try omega
      · simp [RateLimits.clearLimit, limitActive, ht]

/-- Usability at `now` is invariant under the expired-limit sweep at `now`. -/
theorem isAccountUsable_clearAccount (now : Int) (a : Account)
    (mid : Option String) :
    Selection.isAccountUsable now (RateLimits.clearAccount now a) mid
      = Selection.isAccountUsable now a mid := by
  rcases mid with _ | m
  · simp [Selection.isAccountUsable, RateLimits.clearAccount]
  · by_cases hm : m = ""
    · simp [Selection.isAccountUsable, RateLimits.clearAccount, hm]
    · rcases hl : lookupLimit a.modelRateLimits m with _ | lim <;>
        simp [Selection.isAccountUsable, RateLimits.clearAccount,
          lookupLimit_clear, hl, hm, limitActive_clearLimit]

/-- If every account is unusable, the available-account filter is empty. -/
theorem getAvailable_eq_nil (now : Int) (accs : List Account)
    (m : Option String)
    (h : ∀ a ∈ accs, Selection.isAccountUsable now a m = false) :
    Selection.getAvailableAccounts now accs m = [] := by
  induction accs with
  | nil => rfl
  | cons a rest ih =>
    have ha := h a (by simp)
    simp only [Selection.getAvailableAccounts, List.filter] at *
    rw [ha]
    exact ih (fun x hx => h x (by simp [hx]))

/-- When every account of the swept pool is unusable,
`getCurrentStickyAccount` returns no account and the swept pool. -/
theorem getCurrentSticky_none (now : Int) (accs0 : List Account) (idx : Nat)
    (m : Option String)
    (h : ∀ a ∈ RateLimits.clearExpiredLimits now accs0,
      Selection.isAccountUsable now a m = false) :
    ∃ j, Selection.getCurrentStickyAccount now accs0 idx m
      = ⟨RateLimits.clearExpiredLimits now accs0, none, j⟩ := by
  unfold Selection.getCurrentStickyAccount
  by_cases he : (RateLimits.clearExpiredLimits now accs0).isEmpty
  · exact ⟨idx, by simp [he]⟩
  · refine ⟨if idx ≥ (RateLimits.clearExpiredLimits now accs0).length then 0
      else idx, ?_⟩
    simp only [he, Bool.false_eq_true, if_false]
    rcases hg : (RateLimits.clearExpiredLimits now accs0)[
        if idx ≥ (RateLimits.clearExpiredLimits now accs0).length then 0
        else idx]? with _ | a
    · simp [hg]
    · have ha : a ∈ RateLimits.clearExpiredLimits now accs0 :=
        List.getElem?_mem hg
      simp [hg, h a ha]

/-- When every account of the swept pool is unusable, `pickNext` returns no
account and leaves the index unchanged. -/
theorem pickNext_none (now : Int) (accs0 : List Account) (idx : Nat)
    (m : Option String)
    (h : ∀ a ∈ RateLimits.clearExpiredLimits now accs0,
      Selection.isAccountUsable now a m = false) :
    Selection.pickNext now accs0 idx m
      = ⟨RateLimits.clearExpiredLimits now accs0, none, idx⟩ := by
  unfold Selection.pickNext
  simp [getAvailable_eq_nil now _ m h]

/-- C1 counterexample: a two-account pool, both rate-limited for model "m"
far beyond the wait threshold.  The sticky account is unusable, no other
account is usable, and the wait is not short, yet `pickStickyAccount` does
not advance the index and returns a null account (the final `pickNext` only
returns usable accounts), contradicting the claimed non-null result. -/
theorem c1_counterexample :
    (∀ a ∈ RateLimits.clearExpiredLimits 0
        [{ email := "a",
           modelRateLimits := [("m", ⟨true, some 10000000⟩)] },
         { email := "b",
           modelRateLimits := [("m", ⟨true, some 10000000⟩)] }],
      Selection.isAccountUsable 0 a (some "m") = false)
    ∧ (Selection.shouldWaitForCurrentAccount 0
        (RateLimits.clearExpiredLimits 0
          [{ email := "a",
             modelRateLimits := [("m", ⟨true, some 10000000⟩)] },
           { email := "b",
             modelRateLimits := [("m", ⟨true, some 10000000⟩)] }])
        0 (some "m")).shouldWait = false
    ∧ (Selection.pickStickyAccount 0
        [{ email := "a",
           modelRateLimits := [("m", ⟨true, some 10000000⟩)] },
         { email := "b",
           modelRateLimits := [("m", ⟨true, some 10000000⟩)] }]
        0 (some "m")).account = none
    ∧ (Selection.pickStickyAccount 0
        [{ email := "a",
           modelRateLimits := [("m", ⟨true, some 10000000⟩)] },
         { email := "b",
           modelRateLimits := [("m", ⟨true, some 10000000⟩)] }]
        0 (some "m")).newIndex = 0 := by decide

/-- C1 amended: when the sticky account is unusable, no account is usable for
the model, and the sticky rate limit is not due to reset within the short
wait threshold, `pickStickyAccount` falls through to a final `pickNext`,
which (returning only usable accounts) finds none: the result is a null
account with `waitMs = 0` and an unchanged `activeIndex`; the dispatcher, not
this function, then surfaces the wait-for-all logic. -/
theorem c1_amended (now : Int) (accounts : List Account) (idx : Nat)
    (m : String)
    (hall : ∀ a ∈ RateLimits.clearExpiredLimits now accounts,
      Selection.isAccountUsable now a (some m) = false)
    (hwait : (Selection.shouldWaitForCurrentAccount now
        (RateLimits.clearExpiredLimits now accounts) idx
        (some m)).shouldWait = false) :
    (Selection.pickStickyAccount now accounts idx (some m)).account = none
    ∧ (Selection.pickStickyAccount now accounts idx (some m)).waitMs = 0
    ∧ (Selection.pickStickyAccount now accounts idx (some m)).newIndex = idx
    := by
  obtain ⟨j, hj⟩ := getCurrentSticky_none now accounts idx (some m) hall
  have hall2 : ∀ a ∈ RateLimits.clearExpiredLimits now
      (RateLimits.clearExpiredLimits now accounts),
      Selection.isAccountUsable now a (some m) = false := by
    intro a ha
    obtain ⟨b, hb, rfl⟩ := List.mem_map.mp ha
    rw [isAccountUsable_clearAccount]
    exact hall b hb
  have hav1 := getAvailable_eq_nil now
    (RateLimits.clearExpiredLimits now accounts) (some m) hall
  have hnext := pickNext_none now
    (RateLimits.clearExpiredLimits now accounts) idx (some m) hall2
  simp [Selection.pickStickyAccount, hj, hav1, Selection.stickyTail, hwait,
    hnext]

/-- C1 witness: the amended statement at the counterexample pool. -/
theorem c1_witness :
    (Selection.pickStickyAccount 0
      [{ email := "a", modelRateLimits := [("m", ⟨true, some 10000000⟩)] },
       { email := "b", modelRateLimits := [("m", ⟨true, some 10000000⟩)] }]
      0 (some "m")).account = none
    ∧ (Selection.pickStickyAccount 0
      [{ email := "a", modelRateLimits := [("m", ⟨true, some 10000000⟩)] },
       { email := "b", modelRateLimits := [("m", ⟨true, some 10000000⟩)] }]
      0 (some "m")).waitMs = 0
    ∧ (Selection.pickStickyAccount 0
      [{ email := "a", modelRateLimits := [("m", ⟨true, some 10000000⟩)] },
       { email := "b", modelRateLimits := [("m", ⟨true, some 10000000⟩)] }]
      0 (some "m")).newIndex = 0 :=
  c1_amended 0
    [{ email := "a", modelRateLimits := [("m", ⟨true, some 10000000⟩)] },
     { email := "b", modelRateLimits := [("m", ⟨true, some 10000000⟩)] }]
    0 "m" (by decide) (by decide)

/-- The well-formedness automaton distributes over appending event lists. -/
theorem runCheck_append (st : Streamer.CheckState)
    (l1 l2 : List Streamer.SSEEvent) :
    Streamer.runCheck st (l1 ++ l2)
      = match Streamer.runCheck st l1 with
        | some st2 => Streamer.runCheck st2 l2
        | none => none := by
  induction l1 generalizing st with
  | nil => rfl
  | cons e rest ih =>
    simp only [List.cons_append, Streamer.runCheck]
    rcases h : Streamer.stepCheck st e with _ | st2
    · rfl
    · exact ih st2

/-- Simulation, one part: the events emitted for one part drive the automaton
from the simulating body state to the body state simulating the new
translator state, and part processing never touches `hasEmittedStart`. -/
theorem runCheck_processPart (s : Streamer.StreamState) (p : Streamer.GPart) :
    Streamer.runCheck
      (Streamer.CheckState.body s.currentBlockType s.blockIndex)
      (Streamer.processPart s p).2
      = some (Streamer.CheckState.body
          (Streamer.processPart s p).1.currentBlockType
          (Streamer.processPart s p).1.blockIndex)
    ∧ (Streamer.processPart s p).1.hasEmittedStart = s.hasEmittedStart := by
  rcases p with ⟨txt, sig⟩ | t | ⟨id, name, args, sig⟩ | _
  · -- thought part
    by_cases hsig : ¬ sig.getD "" = ""
        ∧ Streamer.MIN_SIGNATURE_LENGTH ≤ (sig.getD "").length <;>
    rcases hcb : s.currentBlockType with _ | k <;>
    try cases k
    all_goals
      simp [Streamer.processPart, hcb, hsig, Streamer.runCheck,
        Streamer.stepCheck, Streamer.Delta.isSignature,
        Streamer.ContentBlockInit.kind]
  · -- text part
    by_cases hskip : t = "" ∨ t.trim = ""
    · simp [Streamer.processPart, hskip, Streamer.runCheck]
    · by_cases hcursig : s.currentThinkingSignature = "" <;>
      rcases hcb : s.currentBlockType with _ | k <;>
      try cases k
      all_goals
        simp [Streamer.processPart, hskip, hcb, hcursig, Streamer.runCheck,
          Streamer.stepCheck, Streamer.Delta.isSignature,
          Streamer.ContentBlockInit.kind]
  · -- functionCall part
    rcases id with _ | i <;>
    by_cases hcursig : s.currentThinkingSignature = "" <;>
    rcases hcb : s.currentBlockType with _ | k <;>
    try cases k
    all_goals
      simp [Streamer.processPart, hcb, hcursig, Streamer.runCheck,
        Streamer.stepCheck, Streamer.Delta.isSignature,
        Streamer.ContentBlockInit.kind]
  · simp [Streamer.processPart, Streamer.runCheck]

/-- Simulation, one parts list. -/
theorem runCheck_processParts (ps : List Streamer.GPart)
    (s : Streamer.StreamState) :
    Streamer.runCheck
      (Streamer.CheckState.body s.currentBlockType s.blockIndex)
      (Streamer.processParts s ps).2
      = some (Streamer.CheckState.body
          (Streamer.processParts s ps).1.currentBlockType
          (Streamer.processParts s ps).1.blockIndex)
    ∧ (Streamer.processParts s ps).1.hasEmittedStart = s.hasEmittedStart := by
  induction ps generalizing s with
  | nil => exact ⟨rfl, rfl⟩
  | cons p rest ih =>
    obtain ⟨hstep, hflag⟩ := runCheck_processPart s p
    obtain ⟨hrest, hflag2⟩ := ih (Streamer.processPart s p).1
    constructor
    · show Streamer.runCheck _ ((Streamer.processPart s p).2
        ++ (Streamer.processParts (Streamer.processPart s p).1 rest).2) = _
      rw [runCheck_append, hstep]
      exact hrest
    · show (Streamer.processParts (Streamer.processPart s p).1
        rest).1.hasEmittedStart = s.hasEmittedStart
      rw [hflag2, hflag]

/-- The usage-tracking update touches only the token counters. -/
theorem applyUsage_state (s : Streamer.StreamState)
    (u : Option Streamer.UsageMetadata) :
    (Streamer.applyUsage s u).hasEmittedStart = s.hasEmittedStart
    ∧ (Streamer.applyUsage s u).currentBlockType = s.currentBlockType
    ∧ (Streamer.applyUsage s u).blockIndex = s.blockIndex := by
  rcases u with _ | u <;> exact ⟨rfl, rfl, rfl⟩

/-- The finish-reason update touches only `stopReason`. -/
theorem applyFinish_state (s : Streamer.StreamState) (fr : Option String) :
    (Streamer.applyFinish s fr).hasEmittedStart = s.hasEmittedStart
    ∧ (Streamer.applyFinish s fr).currentBlockType = s.currentBlockType
    ∧ (Streamer.applyFinish s fr).blockIndex = s.blockIndex := by
  rcases fr with _ | fr
  · exact ⟨rfl, rfl, rfl⟩
  · by_cases h1 : fr = "MAX_TOKENS"
    · simp [Streamer.applyFinish, h1]
    · by_cases h2 : fr = "STOP" <;> simp [Streamer.applyFinish, h1, h2]

/-- `runCheck_processParts` with the body state abstracted, so that it can be
applied without normalizing record literals. -/
theorem runCheck_processParts_gen (ps : List Streamer.GPart)
    (s : Streamer.StreamState) (cb : Option Streamer.BlockKind) (bi : Nat)
    (hc : s.currentBlockType = cb) (hb : s.blockIndex = bi) :
    Streamer.runCheck (Streamer.CheckState.body cb bi)
      (Streamer.processParts s ps).2
      = some (Streamer.CheckState.body
          (Streamer.processParts s ps).1.currentBlockType
          (Streamer.processParts s ps).1.blockIndex) := by
  rw [← hc, ← hb]
  exact (runCheck_processParts ps s).1

/-- Part processing never touches `hasEmittedStart`. -/
theorem processParts_flag (ps : List Streamer.GPart)
    (s : Streamer.StreamState) :
    (Streamer.processParts s ps).1.hasEmittedStart = s.hasEmittedStart :=
  (runCheck_processParts ps s).2

/-- Simulation, one chunk, carrying the structural invariant that before
`message_start` no block is open and the index is 0. -/
theorem runCheck_processChunk (msgId model : String)
    (c : Streamer.GoogleChunk) (s : Streamer.StreamState)
    (hInv : s.hasEmittedStart = false →
      s.currentBlockType = none ∧ s.blockIndex = 0) :
    Streamer.runCheck (Streamer.repState s)
      (Streamer.processChunk msgId model s c).2
      = some (Streamer.repState (Streamer.processChunk msgId model s c).1)
    ∧ ((Streamer.processChunk msgId model s c).1.hasEmittedStart = false →
      (Streamer.processChunk msgId model s c).1.currentBlockType = none
      ∧ (Streamer.processChunk msgId model s c).1.blockIndex = 0) := by
  obtain ⟨huf, huc, hub⟩ := applyUsage_state s c.usageMetadata
  rcases hps : c.parts with _ | ⟨q, qs⟩
  · -- no parts: no events, state only sees the usage and finish updates
    have heq : Streamer.processChunk msgId model s c
        = (Streamer.applyFinish (Streamer.applyUsage s c.usageMetadata)
            c.finishReason, []) := by
      unfold Streamer.processChunk
      simp [hps, Streamer.processParts]
    obtain ⟨hff, hfc, hfb⟩ :=
      applyFinish_state (Streamer.applyUsage s c.usageMetadata) c.finishReason
    have hrep : Streamer.repState
        (Streamer.applyFinish (Streamer.applyUsage s c.usageMetadata)
          c.finishReason) = Streamer.repState s := by
      unfold Streamer.repState
      rw [hff, huf, hfc, huc, hfb, hub]
    rw [heq]
    refine ⟨by simp [Streamer.runCheck, hrep], ?_⟩
    intro hf0
    rw [hff, huf] at hf0
    rw [hfc, huc, hfb, hub]
    exact hInv hf0
  · -- at least one part
    rcases hflag : s.hasEmittedStart
    · -- message_start is emitted first
      obtain ⟨hc0, hi0⟩ := hInv hflag
      have heq : Streamer.processChunk msgId model s c
          = (Streamer.applyFinish
              (Streamer.processParts
                { Streamer.applyUsage s c.usageMetadata with
                    hasEmittedStart := true } (q :: qs)).1 c.finishReason,
             Streamer.SSEEvent.message_start msgId model
               ⟨(Streamer.applyUsage s c.usageMetadata).inputTokens
                  - (Streamer.applyUsage s c.usageMetadata).cacheReadTokens,
                0, (Streamer.applyUsage s c.usageMetadata).cacheReadTokens, 0⟩
               :: (Streamer.processParts
                { Streamer.applyUsage s c.usageMetadata with
                    hasEmittedStart := true } (q :: qs)).2) := by
        unfold Streamer.processChunk
        simp [hps, huf, hflag]
      have hrun := runCheck_processParts_gen (q :: qs)
        { Streamer.applyUsage s c.usageMetadata with hasEmittedStart := true }
        none 0 (by simp [huc, hc0]) (by simp [hub, hi0])
      have hfl2 : (Streamer.processParts
          { Streamer.applyUsage s c.usageMetadata with
              hasEmittedStart := true } (q :: qs)).1.hasEmittedStart
          = true := by
        rw [processParts_flag]
      obtain ⟨hff, hfc, hfb⟩ := applyFinish_state
        (Streamer.processParts
          { Streamer.applyUsage s c.usageMetadata with
              hasEmittedStart := true } (q :: qs)).1 c.finishReason
      rw [heq]
      constructor
      · show Streamer.runCheck (Streamer.repState s) (_ :: _) = _
        simp only [Streamer.repState, hflag, Bool.false_eq_true, if_false,
          Streamer.runCheck, Streamer.stepCheck]
        rw [hrun]
        simp only [Streamer.repState, hff, hfl2, if_true, hfc, hfb]
      · intro hf0
        rw [hff, hfl2] at hf0
        simp at hf0
    · -- message_start was already emitted
      have heq : Streamer.processChunk msgId model s c
          = (Streamer.applyFinish
              (Streamer.processParts (Streamer.applyUsage s c.usageMetadata)
                (q :: qs)).1 c.finishReason,
             (Streamer.processParts (Streamer.applyUsage s c.usageMetadata)
                (q :: qs)).2) := by
        unfold Streamer.processChunk
        simp [hps, huf, hflag]
      have hrun := runCheck_processParts_gen (q :: qs)
        (Streamer.applyUsage s c.usageMetadata) s.currentBlockType
        s.blockIndex huc hub
      have hfl2 : (Streamer.processParts
          (Streamer.applyUsage s c.usageMetadata)
          (q :: qs)).1.hasEmittedStart = true := by
        rw [processParts_flag, huf, hflag]
      obtain ⟨hff, hfc, hfb⟩ := applyFinish_state
        (Streamer.processParts (Streamer.applyUsage s c.usageMetadata)
          (q :: qs)).1 c.finishReason
      rw [heq]
      constructor
      · show Streamer.runCheck (Streamer.repState s) _ = _
        simp only [Streamer.repState, hflag, if_true]
        rw [hrun]
        simp only [Streamer.repState, hff, hfl2, if_true, hfc, hfb]
      · intro hf0
        rw [hff, hfl2] at hf0
        simp at hf0

/-- Simulation over a list of chunks. -/
theorem runCheck_processChunks (msgId model : String)
    (chunks : List Streamer.GoogleChunk) :
    ∀ s : Streamer.StreamState,
    (s.hasEmittedStart = false →
      s.currentBlockType = none ∧ s.blockIndex = 0) →
    Streamer.runCheck (Streamer.repState s)
      (Streamer.processChunks msgId model s chunks).2
      = some (Streamer.repState
          (Streamer.processChunks msgId model s chunks).1)
    ∧ ((Streamer.processChunks msgId model s chunks).1.hasEmittedStart = false
      → (Streamer.processChunks msgId model s chunks).1.currentBlockType
          = none
        ∧ (Streamer.processChunks msgId model s chunks).1.blockIndex = 0)
    := by
  induction chunks with
  | nil => intro s h; exact ⟨rfl, h⟩
  | cons ch rest ih =>
    intro s h
    obtain ⟨h1, hInv1⟩ := runCheck_processChunk msgId model ch s h
    obtain ⟨h2, hInv2⟩ := ih (Streamer.processChunk msgId model s ch).1 hInv1
    constructor
    · show Streamer.runCheck _ ((Streamer.processChunk msgId model s ch).2
        ++ (Streamer.processChunks msgId model
          (Streamer.processChunk msgId model s ch).1 rest).2) = _
      rw [runCheck_append, h1]
      exact h2
    · exact hInv2

/-- The epilogue of `streamSSEResponse` drives the automaton from any
simulating state to completion. -/
theorem runCheck_epilogue (msgId model : String)
    (s : Streamer.StreamState) :
    Streamer.runCheck (Streamer.repState s)
      (Streamer.epilogue msgId model s) = some Streamer.CheckState.done := by
  rcases hflag : s.hasEmittedStart
  · simp [Streamer.epilogue, hflag, Streamer.repState, Streamer.runCheck,
      Streamer.stepCheck, Streamer.Delta.isSignature,
      Streamer.ContentBlockInit.kind]
  · rcases hcb : s.currentBlockType with _ | k
    · simp [Streamer.epilogue, hflag, hcb, Streamer.repState,
        Streamer.runCheck, Streamer.stepCheck]
    · cases k <;>
      by_cases hsig : s.currentThinkingSignature = "" <;>
      simp [Streamer.epilogue, hflag, hcb, hsig, Streamer.repState,
        Streamer.runCheck, Streamer.stepCheck, Streamer.Delta.isSignature]

/-- C2: for every sequence of upstream chunks, the event sequence that
`streamSSEResponse` yields is accepted by the well-formedness automaton: it
begins with exactly one `message_start` before any `content_block_*` event;
every content block is bracketed by a `content_block_start` and a matching
`content_block_stop` on the same index; block indices are consecutive from 0
(hence strictly increasing); every delta, in particular a `signature_delta`
of a thinking block, lies inside its block and so precedes that block's
`content_block_stop`; and the sequence ends with `message_delta` followed by
`message_stop`. -/
theorem c2_sse_event_wellformedness (msgId model : String)
    (chunks : List Streamer.GoogleChunk) :
    Streamer.runCheck Streamer.CheckState.start
      (Streamer.streamSSEResponse msgId model chunks)
      = some Streamer.CheckState.done := by
  obtain ⟨h1, _⟩ := runCheck_processChunks msgId model chunks
    ({} : Streamer.StreamState) (fun _ => ⟨rfl, rfl⟩)
  have h1' : Streamer.runCheck Streamer.CheckState.start
      (Streamer.processChunks msgId model ({} : Streamer.StreamState)
        chunks).2
      = some (Streamer.repState
          (Streamer.processChunks msgId model ({} : Streamer.StreamState)
            chunks).1) := h1
  show Streamer.runCheck Streamer.CheckState.start
    ((Streamer.processChunks msgId model ({} : Streamer.StreamState)
        chunks).2
      ++ Streamer.epilogue msgId model
        (Streamer.processChunks msgId model ({} : Streamer.StreamState)
          chunks).1) = _
  rw [runCheck_append, h1']
  exact runCheck_epilogue msgId model _

/-- Unavailability for `isAllRateLimited` is invariant under the expired
sweep at the same instant. -/
theorem accUnavailable_clearAccount (now : Int) (m : String) (a : Account) :
    RateLimits.accUnavailable now m (RateLimits.clearAccount now a)
      = RateLimits.accUnavailable now m a := by
  rcases hl : lookupLimit a.modelRateLimits m with _ | lim <;>
    simp [RateLimits.accUnavailable, RateLimits.clearAccount,
      lookupLimit_clear, hl, limitActive_clearLimit]

/-- The `all` check of `isAllRateLimited` is invariant under the expired
sweep at the same instant. -/
theorem all_unavailable_clear (now : Int) (m : String) (l : List Account) :
    (l.map (RateLimits.clearAccount now)).all (RateLimits.accUnavailable now m)
      = l.all (RateLimits.accUnavailable now m) := by
  induction l with
  | nil => rfl
  | cons a rest ih => simp [accUnavailable_clearAccount, ih]

/-- `isAllRateLimited` is invariant under the expired sweep at the same
instant. -/
theorem isAllRateLimited_clear (now : Int) (accs : List Account)
    (mid : Option String) :
    RateLimits.isAllRateLimited now (RateLimits.clearExpiredLimits now accs)
      mid = RateLimits.isAllRateLimited now accs mid := by
  rcases accs with _ | ⟨a, rest⟩
  · rfl
  · rcases mid with _ | m
    · rfl
    · by_cases hm : m = ""
      · simp [RateLimits.isAllRateLimited, RateLimits.clearExpiredLimits, hm]
      · simp only [RateLimits.isAllRateLimited, RateLimits.clearExpiredLimits,
          hm, List.map_cons, List.isEmpty_cons, List.all_cons]
        simp only [Bool.false_eq_true, if_false, if_neg hm]
        rw [accUnavailable_clearAccount, all_unavailable_clear]

/-- The wait candidate of `getMinWaitTimeMs` is invariant under the expired
sweep at the same instant. -/
theorem minWaitCandidate_clear (now : Int) (m : String) (a : Account) :
    RateLimits.minWaitCandidate now m (RateLimits.clearAccount now a)
      = RateLimits.minWaitCandidate now m a := by
  rcases hl : lookupLimit a.modelRateLimits m with _ | lim
  · simp [RateLimits.minWaitCandidate, RateLimits.clearAccount,
      lookupLimit_clear, hl]
  · simp only [RateLimits.minWaitCandidate, RateLimits.clearAccount,
      lookupLimit_clear, hl, Option.map_some]
    rcases lim with ⟨flag, rt⟩
    cases flag
    · simp [RateLimits.clearLimit]
    · rcases rt with _ | t
      · simp [RateLimits.clearLimit]
      · by_cases ht : t ≤ now
        · have hneg : ¬ (0 : Int) < t - now := by omega
          simp [RateLimits.clearLimit, ht, hneg]
        · simp [RateLimits.clearLimit, ht]

/-- The running-minimum fold of `getMinWaitTimeMs` is invariant under the
expired sweep at the same instant. -/
theorem foldl_minWaitStep_clear (now : Int) (mid : Option String)
    (l : List Account) :
    ∀ init : Option Int,
    (l.map (RateLimits.clearAccount now)).foldl
      (RateLimits.minWaitStep now mid) init
      = l.foldl (RateLimits.minWaitStep now mid) init := by
  induction l with
  | nil => intro init; rfl
  | cons a rest ih =>
    intro init
    simp only [List.map_cons, List.foldl_cons]
    have hstep : RateLimits.minWaitStep now mid init
        (RateLimits.clearAccount now a)
        = RateLimits.minWaitStep now mid init a := by
      unfold RateLimits.minWaitStep
      rcases mid with _ | m
      · rfl
      · by_cases hm : m = ""
        · simp [hm]
        · simp [hm, minWaitCandidate_clear]
    rw [hstep]
    exact ih _

/-- `getMinWaitTimeMs` is invariant under the expired sweep at the same
instant. -/
theorem getMinWaitTimeMs_clear (now : Int) (accs : List Account)
    (mid : Option String) :
    RateLimits.getMinWaitTimeMs now (RateLimits.clearExpiredLimits now accs)
      mid = RateLimits.getMinWaitTimeMs now accs mid := by
  unfold RateLimits.getMinWaitTimeMs
  rw [isAllRateLimited_clear]
  unfold RateLimits.clearExpiredLimits
  rw [foldl_minWaitStep_clear]

/-- Once the running minimum is set, the fold keeps it set and never
increases it. -/
theorem foldl_minWaitStep_some_le (now : Int) (m : String)
    (l : List Account) :
    ∀ v : Int, ∃ w, l.foldl (RateLimits.minWaitStep now (some m)) (some v)
      = some w ∧ w ≤ v := by
  induction l with
  | nil => intro v; exact ⟨v, rfl, le_refl v⟩
  | cons a rest ih =>
    intro v
    by_cases hm : m = ""
    · subst hm
      simp only [List.foldl_cons]
      have hid : RateLimits.minWaitStep now (some "") (some v) a
          = some v := by
        simp [RateLimits.minWaitStep]
      rw [hid]
      exact ih v
    · rcases hc : RateLimits.minWaitCandidate now m a with _ | w0
      · simp only [List.foldl_cons, RateLimits.minWaitStep, hm, hc]
        simp [hm]
        exact ih v
      · by_cases hlt : w0 < v
        · simp only [List.foldl_cons, RateLimits.minWaitStep, hm, hc]
          simp [hm, hlt]
          obtain ⟨w, hw, hle⟩ := ih w0
          exact ⟨w, hw, le_trans hle (le_of_lt hlt)⟩
        · simp only [List.foldl_cons, RateLimits.minWaitStep, hm, hc]
          simp [hm, hlt]
          exact ih v

/-- The fold result is bounded by every candidate of a member. -/
theorem foldl_minWaitStep_le (now : Int) (m : String) (hm : m ≠ "")
    (l : List Account) (a : Account) (w0 : Int) :
    a ∈ l → RateLimits.minWaitCandidate now m a = some w0 →
    ∀ init : Option Int,
      ∃ w, l.foldl (RateLimits.minWaitStep now (some m)) init = some w
        ∧ w ≤ w0 := by
  induction l with
  | nil => intro ha; cases ha
  | cons b rest ih =>
    intro ha hc init
    rcases List.mem_cons.mp ha with rfl | hmem
    · have hv : ∃ v, RateLimits.minWaitStep now (some m) init a = some v
          ∧ v ≤ w0 := by
        rcases init with _ | v0
        · exact ⟨w0, by simp [RateLimits.minWaitStep, hm, hc], le_refl _⟩
        · by_cases hlt : w0 < v0
          · exact ⟨w0, by simp [RateLimits.minWaitStep, hm, hc, hlt],
              le_refl _⟩
          · exact ⟨v0, by simp [RateLimits.minWaitStep, hm, hc, hlt],
              by omega⟩
      obtain ⟨v, hv1, hv2⟩ := hv
      simp only [List.foldl_cons, hv1]
      obtain ⟨w, hw, hwle⟩ := foldl_minWaitStep_some_le now m rest v
      exact ⟨w, hw, le_trans hwle hv2⟩
    · simp only [List.foldl_cons]
      exact ih hmem hc _

/-- The fold result, when set, is achieved by some member (or was the initial
value). -/
theorem foldl_minWaitStep_mem (now : Int) (m : String) (hm : m ≠ "")
    (l : List Account) :
    ∀ (init : Option Int) (v : Int),
      l.foldl (RateLimits.minWaitStep now (some m)) init = some v →
      init = some v
      ∨ ∃ a ∈ l, RateLimits.minWaitCandidate now m a = some v := by
  induction l with
  | nil => intro init v h; exact Or.inl h
  | cons b rest ih =>
    intro init v h
    simp only [List.foldl_cons] at h
    rcases ih (RateLimits.minWaitStep now (some m) init b) v h with
      hinit | ⟨a, ha, hca⟩
    · rcases hc : RateLimits.minWaitCandidate now m b with _ | w0
      · left
        simpa [RateLimits.minWaitStep, hm, hc] using hinit
      · rcases init with _ | v0
        · right
          refine ⟨b, by simp, ?_⟩
          rw [hc]
          simpa [RateLimits.minWaitStep, hm, hc] using hinit
        · by_cases hlt : w0 < v0
          · right
            refine ⟨b, by simp, ?_⟩
            rw [hc]
            simpa [RateLimits.minWaitStep, hm, hc, hlt] using hinit
          · left
            simpa [RateLimits.minWaitStep, hm, hc, hlt] using hinit
    · exact Or.inr ⟨a, by simp [ha], hca⟩

/-- The pool minimum wait is bounded by the wait of any member with a set
candidate (when everyone is rate-limited, so that the early return does not
fire). -/
theorem getMinWait_le (now : Int) (accs : List Account) (m : String)
    (hm : m ≠ "")
    (hall : RateLimits.isAllRateLimited now accs (some m) = true)
    (a : Account) (ha : a ∈ accs) (w : Int)
    (hc : RateLimits.minWaitCandidate now m a = some w) :
    RateLimits.getMinWaitTimeMs now accs (some m) ≤ w := by
  unfold RateLimits.getMinWaitTimeMs
  rw [if_neg (by simp [hall])]
  obtain ⟨v, hv, hvle⟩ := foldl_minWaitStep_le now m hm accs a w ha hc none
  rw [hv]
  exact hvle

/-- When everyone is rate-limited and some member has a set candidate, the
pool minimum is achieved by some member. -/
theorem getMinWait_mem (now : Int) (accs : List Account) (m : String)
    (hm : m ≠ "")
    (hall : RateLimits.isAllRateLimited now accs (some m) = true)
    (b : Account) (hb : b ∈ accs) (wb : Int)
    (hcb : RateLimits.minWaitCandidate now m b = some wb) :
    ∃ a ∈ accs, RateLimits.minWaitCandidate now m a
      = some (RateLimits.getMinWaitTimeMs now accs (some m)) := by
  obtain ⟨v, hv, _⟩ := foldl_minWaitStep_le now m hm accs b wb hb hcb none
  rcases foldl_minWaitStep_mem now m hm accs none v hv with h0 | ⟨a, ha, hca⟩
  · cases h0
  · refine ⟨a, ha, ?_⟩
    unfold RateLimits.getMinWaitTimeMs
    rw [if_neg (by simp [hall]), hv]
    exact hca

/-- Round-robin rotation: every position of a nonempty list is hit by some
offset of the probe `(x + i) % len`. -/
theorem exists_rotation (len x j : Nat) (hj : j < len) :
    ∃ i, i < len ∧ (x + i) % len = j := by
  have hlen : 0 < len := Nat.lt_of_le_of_lt (Nat.zero_le j) hj
  refine ⟨(j + len - x % len) % len, Nat.mod_lt _ hlen, ?_⟩
  have key : ∀ a b : Nat, (a + b % len) % len = (a + b) % len := by
    intro a b
    rw [Nat.add_mod a (b % len), Nat.mod_mod_of_dvd b (dvd_refl len),
      ← Nat.add_mod]
  rw [key]
  have hx := Nat.div_add_mod x len
  have hr : x % len < len := Nat.mod_lt _ hlen
  have hsplit : x + (j + len - x % len) = len * (x / len) + (j + len) := by
    omega
  rw [hsplit, Nat.mul_add_mod, Nat.add_mod_right, Nat.mod_eq_of_lt hj]

/-- `pickNext` finds an account whenever some account of the swept pool is
usable. -/
theorem pickNext_some (now : Int) (accs0 : List Account) (idx : Nat)
    (m : Option String)
    (h : ∃ b ∈ RateLimits.clearExpiredLimits now accs0,
      Selection.isAccountUsable now b m = true) :
    ∃ a, (Selection.pickNext now accs0 idx m).account = some a := by
  obtain ⟨b, hb, husable⟩ := h
  have hbav : b ∈ Selection.getAvailableAccounts now
      (RateLimits.clearExpiredLimits now accs0) m := by
    unfold Selection.getAvailableAccounts
    exact List.mem_filter.mpr ⟨hb, husable⟩
  have hav : (Selection.getAvailableAccounts now
      (RateLimits.clearExpiredLimits now accs0) m).isEmpty = false := by
    rcases hgo : Selection.getAvailableAccounts now
        (RateLimits.clearExpiredLimits now accs0) m with _ | _
    · rw [hgo] at hbav; cases hbav
    · rfl
  obtain ⟨j, hj⟩ := List.mem_iff_getElem?.mp hb
  have hjlt : j < (RateLimits.clearExpiredLimits now accs0).length :=
    (List.getElem?_eq_some.mp hj).1
  have hfind : ((List.range
      (RateLimits.clearExpiredLimits now accs0).length).find? (fun i =>
        match (RateLimits.clearExpiredLimits now accs0)[
          ((if idx ≥ (RateLimits.clearExpiredLimits now accs0).length then 0
            else idx) + i + 1) % (RateLimits.clearExpiredLimits now
              accs0).length]? with
        | some a => Selection.isAccountUsable now a m
        | none => false)).isSome := by
    apply List.find?_isSome.mpr
    obtain ⟨i, hilt, hieq⟩ := exists_rotation
      (RateLimits.clearExpiredLimits now accs0).length
      ((if idx ≥ (RateLimits.clearExpiredLimits now accs0).length then 0
        else idx) + 1) j hjlt
    refine ⟨i, List.mem_range.mpr hilt, ?_⟩
    have harith : (if idx ≥ (RateLimits.clearExpiredLimits now accs0).length
        then 0 else idx) + i + 1
        = ((if idx ≥ (RateLimits.clearExpiredLimits now accs0).length then 0
          else idx) + 1) + i := by omega
    rw [harith, hieq, hj]
    exact husable
  simp only [Selection.pickNext, Selection.nextUsableOffset, hav,
    Bool.false_eq_true, if_false]
  rcases hoff : (List.range
      (RateLimits.clearExpiredLimits now accs0).length).find? _ with _ | i0
  · rw [hoff] at hfind; cases hfind
  · have hpred := List.find?_some hoff
    rcases hg : (RateLimits.clearExpiredLimits now accs0)[
        ((if idx ≥ (RateLimits.clearExpiredLimits now accs0).length then 0
          else idx) + i0 + 1) % (RateLimits.clearExpiredLimits now
            accs0).length]? with _ | a
    · rw [hg] at hpred; cases hpred
    · exact ⟨{ a with lastUsed := some now }, by simp [hg]⟩

/-- A limit with a future reset survives the sweep. -/
theorem clearLimit_keep (now rt : Int) (h : now < rt) :
    RateLimits.clearLimit now ⟨true, some rt⟩ = ⟨true, some rt⟩ := by
  have : ¬ rt ≤ now := by omega
  simp [RateLimits.clearLimit, this]

/-- An account that is not invalid and carries an active, unexpired limit for
the model is not usable for it. -/
theorem prem_unusable (now : Int) (m : String) (hm : m ≠ "") (a : Account)
    (hinv : a.isInvalid = false) (rt : Int)
    (hlk : lookupLimit a.modelRateLimits m = some ⟨true, some rt⟩)
    (hrt : now < rt) :
    Selection.isAccountUsable now a (some m) = false := by
  simp [Selection.isAccountUsable, hinv, hm, hlk, limitActive, hrt]

/-- Such an account counts as unavailable for `isAllRateLimited`. -/
theorem prem_unavailable (now : Int) (m : String) (a : Account) (rt : Int)
    (hlk : lookupLimit a.modelRateLimits m = some ⟨true, some rt⟩)
    (hrt : now < rt) :
    RateLimits.accUnavailable now m a = true := by
  simp [RateLimits.accUnavailable, hlk, limitActive, hrt]

/-- Such an account has the wait candidate `rt - now`. -/
theorem prem_candidate (now : Int) (m : String) (a : Account) (rt : Int)
    (hlk : lookupLimit a.modelRateLimits m = some ⟨true, some rt⟩)
    (hrt : now < rt) :
    RateLimits.minWaitCandidate now m a = some (rt - now) := by
  have : (0 : Int) < rt - now := by omega
  simp [RateLimits.minWaitCandidate, hlk, this]

/-- Under the all-rate-limited premise, every account of the pool (also after
a sweep) is unusable. -/
theorem prem_unusable_clear (now : Int) (accounts : List Account) (m : String)
    (hm : m ≠ "")
    (hall : ∀ a ∈ accounts, a.isInvalid = false ∧
      ∃ rt, lookupLimit a.modelRateLimits m = some ⟨true, some rt⟩
        ∧ now < rt) :
    ∀ a ∈ RateLimits.clearExpiredLimits now accounts,
      Selection.isAccountUsable now a (some m) = false := by
  intro a ha
  obtain ⟨b, hb, rfl⟩ := List.mem_map.mp ha
  obtain ⟨hinv, rt, hlk, hrt⟩ := hall b hb
  rw [isAccountUsable_clearAccount]
  exact prem_unusable now m hm b hinv rt hlk hrt

/-- Under the all-rate-limited premise, `isAllRateLimited` holds. -/
theorem prem_isAll (now : Int) (accounts : List Account) (m : String)
    (hm : m ≠ "") (hne : accounts ≠ [])
    (hall : ∀ a ∈ accounts, a.isInvalid = false ∧
      ∃ rt, lookupLimit a.modelRateLimits m = some ⟨true, some rt⟩
        ∧ now < rt) :
    RateLimits.isAllRateLimited now accounts (some m) = true := by
  rcases accounts with _ | ⟨a, rest⟩
  · exact absurd rfl hne
  · simp only [RateLimits.isAllRateLimited, List.isEmpty_cons, hm,
      Bool.false_eq_true, if_false]
    rw [List.all_eq_true]
    intro x hx
    obtain ⟨_, rt, hlk, hrt⟩ := hall x hx
    exact prem_unavailable now m x rt hlk hrt

/-- Characterization of `pickStickyAccount` when every account carries an
active, unexpired limit for the model: nothing is usable, so the result is
determined by whether the sticky wait is within the threshold. -/
theorem pickSticky_all_limited (now : Int) (accounts : List Account)
    (idx : Nat) (m : String) (hm : m ≠ "") (hne : accounts ≠ [])
    (hall : ∀ a ∈ accounts, a.isInvalid = false ∧
      ∃ rt, lookupLimit a.modelRateLimits m = some ⟨true, some rt⟩
        ∧ now < rt) :
    ∃ ast rts,
      accounts[if idx ≥ accounts.length then 0 else idx]? = some ast
      ∧ lookupLimit ast.modelRateLimits m = some ⟨true, some rts⟩
      ∧ now < rts
      ∧ Selection.pickStickyAccount now accounts idx (some m)
        = if rts - now ≤ MAX_WAIT_BEFORE_ERROR_MS then
            ⟨RateLimits.clearExpiredLimits now accounts, none, rts - now,
              idx⟩
          else
            ⟨RateLimits.clearExpiredLimits now
              (RateLimits.clearExpiredLimits now accounts), none, 0, idx⟩
    := by
  have hlen : 0 < accounts.length := by
    rcases accounts with _ | _
    · exact absurd rfl hne
    · simp
  have hci : (if idx ≥ accounts.length then 0 else idx) < accounts.length :=
    by split <;> omega
  obtain ⟨ast, hast⟩ : ∃ ast,
      accounts[if idx ≥ accounts.length then 0 else idx]? = some ast := by
    rcases hg : accounts[if idx ≥ accounts.length then 0 else idx]? with _ | x
    · rw [List.getElem?_eq_none_iff] at hg; omega
    · exact ⟨x, rfl⟩
  have hmem : ast ∈ accounts := List.getElem?_mem hast
  obtain ⟨hinv, rts, hlk, hrt⟩ := hall ast hmem
  refine ⟨ast, rts, hast, hlk, hrt, ?_⟩
  have husC := prem_unusable_clear now accounts m hm hall
  -- the sticky probe fails
  obtain ⟨j, hsticky⟩ := getCurrentSticky_none now accounts idx (some m) husC
  -- no account is available
  have hav := getAvailable_eq_nil now
    (RateLimits.clearExpiredLimits now accounts) (some m) husC
  -- facts about the swept pool
  have hLlen : (RateLimits.clearExpiredLimits now accounts).length
      = accounts.length := by
    simp [RateLimits.clearExpiredLimits]
  have hLne : (RateLimits.clearExpiredLimits now accounts).isEmpty = false :=
    by
    rcases accounts with _ | _
    · exact absurd rfl hne
    · rfl
  have hLci : (RateLimits.clearExpiredLimits now accounts)[
      if idx ≥ accounts.length then 0 else idx]?
      = some (RateLimits.clearAccount now ast) := by
    unfold RateLimits.clearExpiredLimits
    rw [List.getElem?_map, hast]
    rfl
  have hclk : lookupLimit
      (RateLimits.clearAccount now ast).modelRateLimits m
      = some ⟨true, some rts⟩ := by
    show lookupLimit (ast.modelRateLimits.map (RateLimits.clearEntry now)) m
      = _
    rw [lookupLimit_clear, hlk]
    simp [clearLimit_keep now rts hrt]
  -- the sticky wait decision
  have hsw : Selection.shouldWaitForCurrentAccount now
      (RateLimits.clearExpiredLimits now accounts) idx (some m)
      = if rts - now ≤ MAX_WAIT_BEFORE_ERROR_MS then
          ⟨true, rts - now, some (RateLimits.clearAccount now ast)⟩
        else ⟨false, 0, some (RateLimits.clearAccount now ast)⟩ := by
    have hpos : (0 : Int) < rts - now := by omega
    simp only [Selection.shouldWaitForCurrentAccount, hLne,
      Bool.false_eq_true, if_false, hLlen, hLci, hm]
    rw [if_neg (by simp [RateLimits.clearAccount, hinv])]
    simp only [ne_eq, hm, not_false_iff, if_true, hclk, if_pos rfl]
    by_cases hcase : rts - now ≤ MAX_WAIT_BEFORE_ERROR_MS
    · rw [if_pos hcase, if_pos ⟨hpos, hcase⟩]
    · rw [if_neg hcase, if_neg (by intro hcon; exact hcase hcon.2)]
  -- everything unusable after a second sweep, for the final pickNext
  have husC2 : ∀ a ∈ RateLimits.clearExpiredLimits now
      (RateLimits.clearExpiredLimits now accounts),
      Selection.isAccountUsable now a (some m) = false := by
    intro a ha
    obtain ⟨b, hb, rfl⟩ := List.mem_map.mp ha
    rw [isAccountUsable_clearAccount]
    exact husC b hb
  have hnext := pickNext_none now
    (RateLimits.clearExpiredLimits now accounts) idx (some m) husC2
  simp only [Selection.pickStickyAccount, hsticky, hav, List.isEmpty_nil,
    not_true, Bool.true_eq_false, if_false, Selection.stickyTail, hsw]
  by_cases hcase : rts - now ≤ MAX_WAIT_BEFORE_ERROR_MS
  · simp [hcase]
  · simp [hcase, hnext]

/-- `getCurrentStickyAccount` returns the clamped-index account when it is
usable. -/
theorem getCurrentSticky_some (now : Int) (accs0 : List Account) (idx : Nat)
    (m : Option String) (b : Account)
    (hb : (RateLimits.clearExpiredLimits now accs0)[
      if idx ≥ (RateLimits.clearExpiredLimits now accs0).length then 0
      else idx]? = some b)
    (hus : Selection.isAccountUsable now b m = true) :
    (Selection.getCurrentStickyAccount now accs0 idx m).account
      = some { b with lastUsed := some now } := by
  have hne : (RateLimits.clearExpiredLimits now accs0).isEmpty = false := by
    rcases hcl : RateLimits.clearExpiredLimits now accs0 with _ | _
    · rw [hcl] at hb; cases hb
    · rfl
  simp only [Selection.getCurrentStickyAccount, hne, Bool.false_eq_true,
    if_false, hb, hus, if_true]

/-- C4 counterexample: two accounts rate-limited for "m", the sticky one
resetting in 90 s, the other in 30 s; threshold 120 s.  Every account is
rate-limited and the minimum wait (30 s) is within the threshold, but the
dispatcher gate sleeps 90 s (the sticky account's wait), not the minimum
30 s the claim states. -/
theorem c4_counterexample :
    RateLimits.getMinWaitTimeMs 0
      [{ email := "a", modelRateLimits := [("m", ⟨true, some 90000⟩)] },
       { email := "b", modelRateLimits := [("m", ⟨true, some 30000⟩)] }]
      (some "m") = 30000
    ∧ (Dispatcher.dispatchGate
      [{ email := "a", modelRateLimits := [("m", ⟨true, some 90000⟩)] },
       { email := "b", modelRateLimits := [("m", ⟨true, some 30000⟩)] }]
      0 (some "m") 0).sleeps = [90000]
    ∧ (90000 : Int) ≠ 30000 := by decide

/-- C4 amended: when every account carries an active, unexpired rate limit
for the requested model, the gate shared by `sendMessage` and
`sendMessageStream` behaves as follows.  If the minimum wait until any reset
exceeds the max-wait threshold, it throws `RESOURCE_EXHAUSTED` carrying that
wait and the reset time, without any sleep.  If the minimum wait is within
the threshold, it never errors: it sleeps exactly once — for the sticky
account's own wait when that is within the threshold (which may exceed the
pool minimum), otherwise for the pool minimum — and then proceeds with a
usable account. -/
theorem c4_amended (now : Int) (accounts : List Account) (idx : Nat)
    (m : String) (hm : m ≠ "") (hne : accounts ≠ [])
    (hall : ∀ a ∈ accounts, a.isInvalid = false ∧
      ∃ rt, lookupLimit a.modelRateLimits m = some ⟨true, some rt⟩
        ∧ now < rt) :
    (MAX_WAIT_BEFORE_ERROR_MS
        < RateLimits.getMinWaitTimeMs now accounts (some m) →
      (Dispatcher.dispatchGate accounts idx (some m) now).sleeps = []
      ∧ (Dispatcher.dispatchGate accounts idx (some m) now).outcome
        = Dispatcher.GateOutcome.resourceExhausted
            (RateLimits.getMinWaitTimeMs now accounts (some m))
            (now + RateLimits.getMinWaitTimeMs now accounts (some m)))
    ∧ (RateLimits.getMinWaitTimeMs now accounts (some m)
        ≤ MAX_WAIT_BEFORE_ERROR_MS →
      ∃ ast rts,
        accounts[if idx ≥ accounts.length then 0 else idx]? = some ast
        ∧ lookupLimit ast.modelRateLimits m = some ⟨true, some rts⟩
        ∧ (∃ a, (Dispatcher.dispatchGate accounts idx (some m) now).outcome
            = Dispatcher.GateOutcome.proceed a)
        ∧ (Dispatcher.dispatchGate accounts idx (some m) now).sleeps
          = [if rts - now ≤ MAX_WAIT_BEFORE_ERROR_MS then rts - now
             else RateLimits.getMinWaitTimeMs now accounts (some m)]
        ∧ RateLimits.getMinWaitTimeMs now accounts (some m)
          ≤ (if rts - now ≤ MAX_WAIT_BEFORE_ERROR_MS then rts - now
             else RateLimits.getMinWaitTimeMs now accounts (some m))
        ∧ (if rts - now ≤ MAX_WAIT_BEFORE_ERROR_MS then rts - now
           else RateLimits.getMinWaitTimeMs now accounts (some m))
          ≤ MAX_WAIT_BEFORE_ERROR_MS) := by
  obtain ⟨ast, rts, hast, hlk, hrt, hps⟩ :=
    pickSticky_all_limited now accounts idx m hm hne hall
  have hAll := prem_isAll now accounts m hm hne hall
  have hmemst : ast ∈ accounts := List.getElem?_mem hast
  have hinvst : ast.isInvalid = false := (hall ast hmemst).1
  have hcandst := prem_candidate now m ast rts hlk hrt
  have hminle := getMinWait_le now accounts m hm hAll ast hmemst (rts - now)
    hcandst
  have hisall2 : RateLimits.isAllRateLimited now
      (RateLimits.clearExpiredLimits now
        (RateLimits.clearExpiredLimits now accounts)) (some m) = true := by
    rw [isAllRateLimited_clear, isAllRateLimited_clear]; exact hAll
  have hmin2 : RateLimits.getMinWaitTimeMs now
      (RateLimits.clearExpiredLimits now
        (RateLimits.clearExpiredLimits now accounts)) (some m)
      = RateLimits.getMinWaitTimeMs now accounts (some m) := by
    rw [getMinWaitTimeMs_clear, getMinWaitTimeMs_clear]
  constructor
  · -- minimum wait beyond the threshold: throw without sleeping
    intro hgt
    have hstbig : ¬ (rts - now ≤ MAX_WAIT_BEFORE_ERROR_MS) := by omega
    rw [if_neg hstbig] at hps
    constructor <;>
      simp [Dispatcher.dispatchGate, hps, Dispatcher.noAccountBranch,
        hisall2, hmin2, hgt]
  · -- minimum wait within the threshold: sleep once and proceed
    intro hle
    refine ⟨ast, rts, hast, hlk, ?_⟩
    by_cases hst : rts - now ≤ MAX_WAIT_BEFORE_ERROR_MS
    · -- the sticky wait is short enough: sleep it and retry the sticky
      rw [if_pos hst] at hps
      have hpos : (0 : Int) < rts - now := by omega
      have hnow2 : now + (rts - now) = rts := by omega
      -- after the sleep the sticky account has become usable
      have hus1 : Selection.isAccountUsable rts
          (RateLimits.clearAccount now ast) (some m) = true := by
        have hlk1 : lookupLimit
            (ast.modelRateLimits.map (RateLimits.clearEntry now)) m
            = some ⟨true, some rts⟩ := by
          rw [lookupLimit_clear, hlk]
          simp [clearLimit_keep now rts hrt]
        simp [Selection.isAccountUsable, hm, hlk1, limitActive,
          RateLimits.clearAccount, hinvst]
      have hus3 : Selection.isAccountUsable rts
          (RateLimits.clearAccount rts (RateLimits.clearAccount rts
            (RateLimits.clearAccount now ast))) (some m) = true := by
        rw [isAccountUsable_clearAccount, isAccountUsable_clearAccount]
        exact hus1
      have hb3 : (RateLimits.clearExpiredLimits rts
          (RateLimits.clearExpiredLimits rts
            (RateLimits.clearExpiredLimits now accounts)))[
          if idx ≥ (RateLimits.clearExpiredLimits rts
            (RateLimits.clearExpiredLimits rts
              (RateLimits.clearExpiredLimits now accounts))).length then 0
          else idx]?
          = some (RateLimits.clearAccount rts (RateLimits.clearAccount rts
              (RateLimits.clearAccount now ast))) := by
        have hlen3 : (RateLimits.clearExpiredLimits rts
            (RateLimits.clearExpiredLimits rts
              (RateLimits.clearExpiredLimits now accounts))).length
            = accounts.length := by
          simp [RateLimits.clearExpiredLimits]
        rw [hlen3]
        unfold RateLimits.clearExpiredLimits
        rw [List.getElem?_map, List.getElem?_map, List.getElem?_map, hast]
        rfl
      have hg := getCurrentSticky_some rts
        (RateLimits.clearExpiredLimits rts
          (RateLimits.clearExpiredLimits now accounts)) idx (some m) _ hb3
        hus3
      refine ⟨⟨{ RateLimits.clearAccount rts (RateLimits.clearAccount rts
          (RateLimits.clearAccount now ast)) with
          lastUsed := some rts }, ?_⟩, ?_, ?_, ?_⟩
      · simp [Dispatcher.dispatchGate, hps, hpos, hnow2, hg]
      · rw [if_pos hst]
        simp [Dispatcher.dispatchGate, hps, hpos, hnow2, hg]
      · rw [if_pos hst]; exact hminle
      · rw [if_pos hst]; exact hst
    · -- the sticky wait is too long: fall through to the pool-minimum sleep
      rw [if_neg hst] at hps
      -- a minimum-achieving account becomes usable after the sleep
      obtain ⟨amin, hamem, hacand⟩ := getMinWait_mem now accounts m hm hAll
        ast hmemst (rts - now) hcandst
      obtain ⟨_, rtm, hlkm, hrtm⟩ := hall amin hamem
      have hacand2 := prem_candidate now m amin rtm hlkm hrtm
      have hrtm2 : rtm - now
          = RateLimits.getMinWaitTimeMs now accounts (some m) := by
        rw [hacand2] at hacand
        exact Option.some_injective _ hacand
      have hnow2 : now + RateLimits.getMinWaitTimeMs now accounts (some m)
          = rtm := by omega
      have hinvm : amin.isInvalid = false := (hall amin hamem).1
      have husm : Selection.isAccountUsable rtm
          (RateLimits.clearAccount rtm (RateLimits.clearAccount rtm
            (RateLimits.clearAccount now (RateLimits.clearAccount now
              amin)))) (some m) = true := by
        rw [isAccountUsable_clearAccount, isAccountUsable_clearAccount]
        have hlk1 : lookupLimit
            (amin.modelRateLimits.map
              (RateLimits.clearEntry now ∘ RateLimits.clearEntry now)) m
            = some ⟨true, some rtm⟩ := by
          rw [← List.map_map, lookupLimit_clear, lookupLimit_clear, hlkm]
          simp [clearLimit_keep now rtm hrtm]
        simp [Selection.isAccountUsable, hm, hlk1, limitActive,
          RateLimits.clearAccount, hinvm]
      have hmemchain : RateLimits.clearAccount rtm (RateLimits.clearAccount
          rtm (RateLimits.clearAccount now (RateLimits.clearAccount now
            amin)))
          ∈ RateLimits.clearExpiredLimits rtm
            (RateLimits.clearExpiredLimits rtm
              (RateLimits.clearExpiredLimits now
                (RateLimits.clearExpiredLimits now accounts))) := by
        unfold RateLimits.clearExpiredLimits
        exact List.mem_map_of_mem _ (List.mem_map_of_mem _
          (List.mem_map_of_mem _ (List.mem_map_of_mem _ hamem)))
      obtain ⟨afound, hfound⟩ := pickNext_some rtm
        (RateLimits.clearExpiredLimits rtm
          (RateLimits.clearExpiredLimits now
            (RateLimits.clearExpiredLimits now accounts))) idx (some m)
        ⟨_, hmemchain, husm⟩
      refine ⟨⟨afound, ?_⟩, ?_, ?_, ?_⟩
      · simp only [Dispatcher.dispatchGate, hps]
        simp only [lt_irrefl, if_false, Dispatcher.noAccountBranch, hisall2,
          hmin2, if_true, if_neg (by omega : ¬ MAX_WAIT_BEFORE_ERROR_MS
            < RateLimits.getMinWaitTimeMs now accounts (some m)), hnow2]
        rcases hpn : Selection.pickNext rtm
            (RateLimits.clearExpiredLimits rtm
              (RateLimits.clearExpiredLimits now
                (RateLimits.clearExpiredLimits now accounts))) idx (some m)
          with ⟨accsf, accf, idxf⟩
        rw [hpn] at hfound
        simp only at hfound
        subst hfound
        simp
      · rw [if_neg hst]
        simp only [Dispatcher.dispatchGate, hps]
        simp only [lt_irrefl, if_false, Dispatcher.noAccountBranch, hisall2,
          hmin2, if_true, if_neg (by omega : ¬ MAX_WAIT_BEFORE_ERROR_MS
            < RateLimits.getMinWaitTimeMs now accounts (some m)), hnow2]
        rcases hpn : Selection.pickNext rtm
            (RateLimits.clearExpiredLimits rtm
              (RateLimits.clearExpiredLimits now
                (RateLimits.clearExpiredLimits now accounts))) idx (some m)
          with ⟨accsf, accf, idxf⟩
        rw [hpn] at hfound
        simp only at hfound
        subst hfound
        simp
      · rw [if_neg hst]
      · rw [if_neg hst]; exact hle

/-- C4 witness: the amended statement at the counterexample pool (sticky
reset 90 s, other reset 30 s, threshold 120 s). -/
theorem c4_witness :
    (MAX_WAIT_BEFORE_ERROR_MS < RateLimits.getMinWaitTimeMs 0
        [{ email := "a", modelRateLimits := [("m", ⟨true, some 90000⟩)] },
         { email := "b", modelRateLimits := [("m", ⟨true, some 30000⟩)] }]
        (some "m") →
      (Dispatcher.dispatchGate
        [{ email := "a", modelRateLimits := [("m", ⟨true, some 90000⟩)] },
         { email := "b", modelRateLimits := [("m", ⟨true, some 30000⟩)] }]
        0 (some "m") 0).sleeps = []
      ∧ (Dispatcher.dispatchGate
        [{ email := "a", modelRateLimits := [("m", ⟨true, some 90000⟩)] },
         { email := "b", modelRateLimits := [("m", ⟨true, some 30000⟩)] }]
        0 (some "m") 0).outcome
        = Dispatcher.GateOutcome.resourceExhausted
            (RateLimits.getMinWaitTimeMs 0
              [{ email := "a",
                 modelRateLimits := [("m", ⟨true, some 90000⟩)] },
               { email := "b",
                 modelRateLimits := [("m", ⟨true, some 30000⟩)] }] (some "m"))
            (0 + RateLimits.getMinWaitTimeMs 0
              [{ email := "a",
                 modelRateLimits := [("m", ⟨true, some 90000⟩)] },
               { email := "b",
                 modelRateLimits := [("m", ⟨true, some 30000⟩)] }]
              (some "m")))
    ∧ (RateLimits.getMinWaitTimeMs 0
        [{ email := "a", modelRateLimits := [("m", ⟨true, some 90000⟩)] },
         { email := "b", modelRateLimits := [("m", ⟨true, some 30000⟩)] }]
        (some "m") ≤ MAX_WAIT_BEFORE_ERROR_MS →
      ∃ ast rts,
        ([{ email := "a", modelRateLimits := [("m", ⟨true, some 90000⟩)] },
          { email := "b", modelRateLimits := [("m", ⟨true, some 30000⟩)] }] :
          List Account)[
          if 0 ≥ ([{ email := "a",
                     modelRateLimits := [("m", ⟨true, some 90000⟩)] },
                   { email := "b",
                     modelRateLimits := [("m", ⟨true, some 30000⟩)] }] :
                    List Account).length then 0 else 0]? = some ast
        ∧ lookupLimit ast.modelRateLimits "m" = some ⟨true, some rts⟩
        ∧ (∃ a, (Dispatcher.dispatchGate
            [{ email := "a", modelRateLimits := [("m", ⟨true, some 90000⟩)] },
             { email := "b", modelRateLimits := [("m", ⟨true, some 30000⟩)] }]
            0 (some "m") 0).outcome = Dispatcher.GateOutcome.proceed a)
        ∧ (Dispatcher.dispatchGate
            [{ email := "a", modelRateLimits := [("m", ⟨true, some 90000⟩)] },
             { email := "b", modelRateLimits := [("m", ⟨true, some 30000⟩)] }]
            0 (some "m") 0).sleeps
          = [if rts - 0 ≤ MAX_WAIT_BEFORE_ERROR_MS then rts - 0
             else RateLimits.getMinWaitTimeMs 0
               [{ email := "a",
                  modelRateLimits := [("m", ⟨true, some 90000⟩)] },
                { email := "b",
                  modelRateLimits := [("m", ⟨true, some 30000⟩)] }]
               (some "m")]
        ∧ RateLimits.getMinWaitTimeMs 0
            [{ email := "a", modelRateLimits := [("m", ⟨true, some 90000⟩)] },
             { email := "b", modelRateLimits := [("m", ⟨true, some 30000⟩)] }]
            (some "m")
          ≤ (if rts - 0 ≤ MAX_WAIT_BEFORE_ERROR_MS then rts - 0
             else RateLimits.getMinWaitTimeMs 0
               [{ email := "a",
                  modelRateLimits := [("m", ⟨true, some 90000⟩)] },
                { email := "b",
                  modelRateLimits := [("m", ⟨true, some 30000⟩)] }]
               (some "m"))
        ∧ (if rts - 0 ≤ MAX_WAIT_BEFORE_ERROR_MS then rts - 0
           else RateLimits.getMinWaitTimeMs 0
             [{ email := "a",
                modelRateLimits := [("m", ⟨true, some 90000⟩)] },
              { email := "b",
                modelRateLimits := [("m", ⟨true, some 30000⟩)] }]
             (some "m"))
          ≤ MAX_WAIT_BEFORE_ERROR_MS) :=
  c4_amended 0
    [{ email := "a", modelRateLimits := [("m", ⟨true, some 90000⟩)] },
     { email := "b", modelRateLimits := [("m", ⟨true, some 30000⟩)] }]
    0 "m" (by decide) (by decide)
    (by
      intro a ha
      simp only [List.mem_cons, List.not_mem_nil, or_false] at ha
      rcases ha with rfl | rfl
      · exact ⟨rfl, 90000, by decide, by decide⟩
      · exact ⟨rfl, 30000, by decide, by decide⟩)

end Antigravity
